import Mathlib

/-
Verification of the NeuralNetworkTrainingSimulation repository
(boids driving on a procedurally generated race track, evolved by a
genetic algorithm).

Shallow embedding conventions:

* JavaScript numbers are modelled as exact rationals (`ℚ`).  IEEE-754
  rounding is below the abstraction level of this development; numeric
  literals from the source (`0.2`, `0.95`, `1e-10`, ...) are read as the
  exact rationals they denote.
* `Math.cos`, `Math.sin`, `Math.sqrt`, `Math.exp` and `Math.atan2` are
  implementation-approximated external functions in ECMAScript; they are
  modelled by an explicit parameter `M : JsMath` carrying arbitrary
  rational-valued functions.  `Math.PI` is the IEEE double nearest π,
  an exact rational (`jsPI`).
* `Math.random()` is an ambient entropy source, modelled as an explicit
  stream `ℕ → ℚ` of draws together with a cursor that every consumer
  threads through.  The seeded PRNG (`seededRandom`, Mulberry32) is a
  pure function of the seed and is modelled exactly (bit operations on
  naturals below 2^32).
* Code that would throw a `TypeError` (out-of-range index whose result
  is then dereferenced) or would poison values with `NaN` (arithmetic on
  `undefined`) is modelled as returning `none`: `ℚ` has no `NaN`, so the
  embedding makes those executions fail instead of continuing with
  garbage.  All claims concern executions that stay inside the defined
  domain.
* The `brain.js` neural network is an opaque external capability per the
  specification: its forward pass is a parameter
  `netRun : NeuralNetworkJSON → List ℚ → List ℚ`, and `toJSON`/`fromJSON`
  are the identity on the stored `NeuralNetworkJSON` value.
-/

/-- Opaque model of the implementation-approximated `Math` functions of
ECMAScript.  Any rational-valued interpretation is a conformant reading;
theorems quantify over `M` and concrete evaluations pick an explicit
instance. -/
structure JsMath where
  cos : ℚ → ℚ
  sin : ℚ → ℚ
  sqrt : ℚ → ℚ
  exp : ℚ → ℚ
  atan2 : ℚ → ℚ → ℚ

/-- Exact rational value of the IEEE-754 double `Math.PI`. -/
def jsPI : ℚ := 884279719003555 / 281474976710656

/-- Embedding of `src/Vector.ts` (`class Vector`).  The TypeScript class
mutates in place; the embedding is functional, every operation returns
the new vector. -/
structure Vec where
  x : ℚ
  y : ℚ

/-- Embedding of `Vector.add`. -/
def Vec.add (a b : Vec) : Vec := ⟨a.x + b.x, a.y + b.y⟩

/-- Embedding of `Vector.sub`. -/
def Vec.sub (a b : Vec) : Vec := ⟨a.x - b.x, a.y - b.y⟩

/-- Embedding of `Vector.mult`. -/
def Vec.mult (a : Vec) (n : ℚ) : Vec := ⟨a.x * n, a.y * n⟩

/-- Embedding of `Vector.mag` (`Math.sqrt(x*x + y*y)`). -/
def Vec.mag (M : JsMath) (a : Vec) : ℚ := M.sqrt (a.x * a.x + a.y * a.y)

/-- Embedding of `Vector.getNormalized`. -/
def Vec.getNormalized (M : JsMath) (a : Vec) : Vec :=
  let m := a.mag M
  if m ≠ 0 then ⟨a.x / m, a.y / m⟩ else ⟨0, 0⟩

/-- Embedding of `Vector.limit`. -/
def Vec.limit (M : JsMath) (a : Vec) (mx : ℚ) : Vec :=
  if mx < a.mag M then
    let n := a.getNormalized M
    ⟨n.x * mx, n.y * mx⟩
  else a

/-- Embedding of `Vector.dist`. -/
def Vec.dist (M : JsMath) (a v : Vec) : ℚ :=
  M.sqrt ((a.x - v.x) * (a.x - v.x) + (a.y - v.y) * (a.y - v.y))

/-- Embedding of `Vector.fromAngle`. -/
def Vec.fromAngle (M : JsMath) (angle len : ℚ) : Vec :=
  ⟨M.cos angle * len, M.sin angle * len⟩

/-- Result record of `getIntersection` from `src/utils.ts`
(`interface Intersection`). -/
structure Intersection where
  x : ℚ
  y : ℚ
  offset : ℚ

/-- Embedding of `getIntersection` from `src/utils.ts`: parametric
segment–segment intersection, `t, u ∈ [0, 1]` inclusive, degenerate
denominator gives no intersection. -/
def getIntersection (A B C D : Vec) : Option Intersection :=
  let tTop := (D.x - C.x) * (A.y - C.y) - (D.y - C.y) * (A.x - C.x)
  let uTop := (C.y - A.y) * (A.x - B.x) - (C.x - A.x) * (A.y - B.y)
  let bottom := (D.y - C.y) * (B.x - A.x) - (D.x - C.x) * (B.y - A.y)
  if bottom ≠ 0 then
    let t := tTop / bottom
    let u := uTop / bottom
    if 0 ≤ t ∧ t ≤ 1 ∧ 0 ≤ u ∧ u ≤ 1 then
      some ⟨A.x + t * (B.x - A.x), A.y + t * (B.y - A.y), t⟩
    else none
  else none

/-- One layer of a serialized `brain.js` network, from
`src/brain-js.d.ts` (`interface NeuralNetworkLayer`): a layer optionally
carries a weight matrix and a bias vector; a layer carrying neither is a
placeholder (the input layer). -/
structure NeuralNetworkLayer where
  weights : Option (List (List ℚ))
  biases : Option (List ℚ)

/-- Serialized `brain.js` network, from `src/brain-js.d.ts`
(`interface NeuralNetworkJSON`).  The metadata fields (`type`,
`options`, lookup tables) are cloned verbatim by every genetic operator
and never inspected, so the embedding keeps only `layers`. -/
structure NeuralNetworkJSON where
  layers : List NeuralNetworkLayer

/-- One step of the Mulberry32 output function, from `seededRandom` in
`src/Track.ts`.  All JavaScript 32-bit coercions (`>>>`, `|`, `^`,
`Math.imul`) are modelled by arithmetic modulo `2^32` on the shared bit
pattern; the result is the final unsigned value divided by `2^32`,
landing in `[0, 1)`. -/
def mulberry32Out (s : ℕ) : ℚ :=
  let t0 := s % 4294967296
  let t1 := ((t0 ^^^ (t0 >>> 15)) * (t0 ||| 1)) % 4294967296
  let t2 := t1 ^^^ ((t1 + ((t1 ^^^ (t1 >>> 7)) * (t1 ||| 61)) % 4294967296) % 4294967296)
  (((t2 ^^^ (t2 >>> 14)) % 4294967296 : ℕ) : ℚ) / 4294967296

/-- Embedding of `seededRandom(seed)` from `src/Track.ts`: the returned
closure advances its captured state by `0x6D2B79F5` on every call, so
the `n`-th draw (counting from 0) hashes `seed + (n+1) * 0x6D2B79F5`. -/
def seededRandom (seed : ℕ) : ℕ → ℚ :=
  fun n => mulberry32Out (seed + (n + 1) * 1831565813)

/-- State of a `Track` object from `src/Track.ts` (spline-based
version): wall segments, checkpoints, start pose, current seed and the
sampled center line. -/
structure Track where
  innerWalls : List (Vec × Vec)
  outerWalls : List (Vec × Vec)
  checkpoints : List (Vec × Vec)
  startPoint : Vec
  startAngle : ℚ
  seed : ℤ
  centerLine : List Vec

/-- Embedding of `Track.generateControlPoints` (recursive worker):
`i` is the loop index, `r` the remaining iterations, `k` the cursor into
the random stream `rng`.  Each iteration draws the angle-variation
decision (taken when the draw exceeds `0.92`, consuming two further
draws), then the radius draw. -/
def generateControlPointsGo (M : JsMath) (cx cy minRadius maxRadius : ℚ)
    (numControlPoints : ℕ) (rng : ℕ → ℚ) : ℕ → ℕ → ℕ → List Vec × ℕ
  | _, 0, k => ([], k)
  | i, r + 1, k =>
    let baseAngle := ((i : ℚ) / (numControlPoints : ℚ)) * jsPI * 2
    let d1 := rng k
    let (angleOffset, k1) :=
      if 0.92 < d1 then
        let direction : ℚ := if 0.5 < rng (k + 1) then 1 else -1
        (direction * rng (k + 2) * 0.08 * (jsPI * 2 / (numControlPoints : ℚ)), k + 3)
      else ((0 : ℚ), k + 1)
    let angle := baseAngle + angleOffset
    let radius := minRadius + rng k1 * (maxRadius - minRadius)
    let p : Vec := ⟨cx + radius * M.cos angle, cy + radius * M.sin angle⟩
    let (rest, k2) := generateControlPointsGo M cx cy minRadius maxRadius
      numControlPoints rng (i + 1) r (k1 + 1)
    (p :: rest, k2)

/-- Embedding of `Track.generateControlPoints`: fourteen control points
around the canvas center, radius in `[0.75, 1.0]` of the base radius,
rare small angle offsets.  Returns the points and the advanced random
cursor. -/
def generateControlPoints (M : JsMath) (w h : ℚ) (rng : ℕ → ℚ) (k : ℕ) :
    List Vec × ℕ :=
  let cx := w / 2
  let cy := h / 2
  let numControlPoints : ℕ := 14
  let baseRadius := min w h * 0.35
  let minRadius := baseRadius * 0.75
  let maxRadius := baseRadius * 1.0
  generateControlPointsGo M cx cy minRadius maxRadius numControlPoints rng 0
    numControlPoints k

/-- One sample of the Catmull–Rom spline of `Track.catmullRomSpline`,
at parameter `s` between `p1` and `p2`. -/
def catmullPoint (p0 p1 p2 p3 : Vec) (s : ℚ) : Vec :=
  let s2 := s * s
  let s3 := s2 * s
  ⟨0.5 * ((-p0.x + 3 * p1.x - 3 * p2.x + p3.x) * s3 +
      (2 * p0.x - 5 * p1.x + 4 * p2.x - p3.x) * s2 +
      (-p0.x + p2.x) * s + 2 * p1.x),
   0.5 * ((-p0.y + 3 * p1.y - 3 * p2.y + p3.y) * s3 +
      (2 * p0.y - 5 * p1.y + 4 * p2.y - p3.y) * s2 +
      (-p0.y + p2.y) * s + 2 * p1.y)⟩

/-- Embedding of `Track.catmullRomSpline`: for each control point,
sample `segmentsPerCurve` points of the wrapped four-point stencil. -/
def catmullRomSpline (points : List Vec) (segmentsPerCurve : ℕ) : List Vec :=
  let n := points.length
  let gp : ℕ → Vec := fun j => points.getD (j % n) ⟨0, 0⟩
  (List.range n).flatMap fun i =>
    (List.range segmentsPerCurve).map fun t =>
      catmullPoint (gp (i + n - 1)) (gp i) (gp (i + 1)) (gp (i + 2))
        ((t : ℚ) / (segmentsPerCurve : ℚ))

/-- Embedding of `Track.calculateNormal`: normalized sum of the
normalized incoming and outgoing tangents, rotated a quarter turn;
zero-length tangents contribute the zero vector. -/
def calculateNormal (M : JsMath) (prev current next : Vec) : Vec :=
  let tangentInX := current.x - prev.x
  let tangentInY := current.y - prev.y
  let magIn := M.sqrt (tangentInX * tangentInX + tangentInY * tangentInY)
  let tinX := if 0 < magIn then tangentInX / magIn else 0
  let tinY := if 0 < magIn then tangentInY / magIn else 0
  let tangentOutX := next.x - current.x
  let tangentOutY := next.y - current.y
  let magOut := M.sqrt (tangentOutX * tangentOutX + tangentOutY * tangentOutY)
  let toutX := if 0 < magOut then tangentOutX / magOut else 0
  let toutY := if 0 < magOut then tangentOutY / magOut else 0
  let avgX := tinX + toutX
  let avgY := tinY + toutY
  let mg := M.sqrt (avgX * avgX + avgY * avgY)
  let tangentX := if 0 < mg then avgX / mg else 0
  let tangentY := if 0 < mg then avgY / mg else 0
  ⟨-tangentY, tangentX⟩

/-- Sign-consistency pass over the normals in
`Track.generateWallsFromCenterLine`: flip a normal when its dot product
with the previous kept normal is negative. -/
def buildNormalsGo : List Vec → Option Vec → List Vec
  | [], _ => []
  | v :: rest, prevNormal =>
    let v1 :=
      match prevNormal with
      | none => v
      | some p => if v.x * p.x + v.y * p.y < 0 then ⟨-v.x, -v.y⟩ else v
    v1 :: buildNormalsGo rest (some v1)

/-- Normals of every center-line sample, sign-consistent along the list
and reconciled at the wrap-around seam, as computed by
`Track.generateWallsFromCenterLine`. -/
def buildNormals (M : JsMath) (cl : List Vec) : List Vec :=
  let n := cl.length
  let raw := (List.range n).map fun i =>
    calculateNormal M (cl.getD ((i + n - 1) % n) ⟨0, 0⟩) (cl.getD i ⟨0, 0⟩)
      (cl.getD ((i + 1) % n) ⟨0, 0⟩)
  let normals := buildNormalsGo raw none
  if 1 < n then
    let firstNormal := normals.getD 0 ⟨0, 0⟩
    let lastNormal := normals.getD (n - 1) ⟨0, 0⟩
    if firstNormal.x * lastNormal.x + firstNormal.y * lastNormal.y < 0 then
      normals.set 0 ⟨-firstNormal.x, -firstNormal.y⟩
    else normals
  else normals

/-- The `trackWidth` field of the spline-based `Track` (`120`). -/
def trackWidth : ℚ := 120

/-- Embedding of `Track.generateWallsFromCenterLine` applied to a track
state: offsets every center-line sample by half the track width along
its normal, connects consecutive offsets into the inner and outer wall
loops (closing last to first), and pairs the offsets into checkpoints.
The loop pushes the checkpoint of sample `i` when visiting sample `i`,
so the closing checkpoint of sample 0 comes last: checkpoint `j` belongs
to sample `j + 1` modulo the sample count. -/
def generateWallsFromCenterLine (M : JsMath) (t : Track) : Track :=
  let cl := t.centerLine
  let n := cl.length
  let halfWidth := trackWidth / 2
  let normals := buildNormals M cl
  let innerPt : ℕ → Vec := fun i =>
    let c := cl.getD i ⟨0, 0⟩
    let nm := normals.getD i ⟨0, 0⟩
    ⟨c.x - nm.x * halfWidth, c.y - nm.y * halfWidth⟩
  let outerPt : ℕ → Vec := fun i =>
    let c := cl.getD i ⟨0, 0⟩
    let nm := normals.getD i ⟨0, 0⟩
    ⟨c.x + nm.x * halfWidth, c.y + nm.y * halfWidth⟩
  { t with
    innerWalls := (List.range n).map fun i => (innerPt i, innerPt ((i + 1) % n))
    outerWalls := (List.range n).map fun i => (outerPt i, outerPt ((i + 1) % n))
    checkpoints := (List.range n).map fun i =>
      (innerPt ((i + 1) % n), outerPt ((i + 1) % n)) }

/-- Embedding of `Track.segmentsIntersect`: parametric test with a
near-zero cross product treated as parallel, and both parameters
required strictly inside `(0.01, 0.99)`. -/
def segmentsIntersect (p1 p2 p3 p4 : Vec) : Bool :=
  let d1x := p2.x - p1.x
  let d1y := p2.y - p1.y
  let d2x := p4.x - p3.x
  let d2y := p4.y - p3.y
  let cross := d1x * d2y - d1y * d2x
  if |cross| < 1 / 10000000000 then false
  else
    let dx := p3.x - p1.x
    let dy := p3.y - p1.y
    let t := (dx * d2y - dy * d2x) / cross
    let u := (dx * d1y - dy * d1x) / cross
    decide (0.01 < t ∧ t < 0.99 ∧ 0.01 < u ∧ u < 0.99)

/-- Embedding of `Track.hasSelfIntersection`: tests each center-line
segment against all segments at index distance at least 3, stopping
before the closing segment. -/
def hasSelfIntersection (cl : List Vec) : Bool :=
  let n := cl.length
  let pt : ℕ → Vec := fun j => cl.getD (j % n) ⟨0, 0⟩
  (List.range n).any fun i =>
    ((List.range (n - 1)).drop (i + 3)).any fun j =>
      segmentsIntersect (pt i) (pt (i + 1)) (pt j) (pt (j + 1))

/-- Embedding of `Track.hasWallIntersection`: inner against non-adjacent
outer walls (adjacency up to index distance 1, also across the wrap),
then inner–inner and outer–outer pairs at index distance at least 3. -/
def hasWallIntersection (t : Track) : Bool :=
  let n := t.innerWalls.length
  let iw : ℕ → Vec × Vec := fun j => t.innerWalls.getD j (⟨0, 0⟩, ⟨0, 0⟩)
  let ow : ℕ → Vec × Vec := fun j => t.outerWalls.getD j (⟨0, 0⟩, ⟨0, 0⟩)
  let crossTest := (List.range n).any fun i =>
    (List.range n).any fun j =>
      if ((i : ℤ) - (j : ℤ)).natAbs ≤ 1 ∨ n - 1 ≤ ((i : ℤ) - (j : ℤ)).natAbs then
        false
      else
        segmentsIntersect (iw i).1 (iw i).2 (ow j).1 (ow j).2
  let sameTest := (List.range n).any fun i =>
    ((List.range (n - 1)).drop (i + 3)).any fun j =>
      segmentsIntersect (iw i).1 (iw i).2 (iw j).1 (iw j).2 ||
        segmentsIntersect (ow i).1 (ow i).2 (ow j).1 (ow j).2
  crossTest || sameTest

/-- Embedding of `Track.findStartPoint`: start pose at the midpoint of
`checkpoints[0]`, heading perpendicular to it via `atan2(-dx, dy)`;
fallback to the canvas center when there are no checkpoints. -/
def findStartPoint (M : JsMath) (t : Track) : Track :=
  match t.checkpoints.head? with
  | some cp =>
    let inner := cp.1
    let outer := cp.2
    let dx := outer.x - inner.x
    let dy := outer.y - inner.y
    { t with
      startPoint := ⟨(inner.x + outer.x) / 2, (inner.y + outer.y) / 2⟩
      startAngle := M.atan2 (-dx) dy }
  | none =>
    { t with startPoint := ⟨1200 / 2, 1200 / 2⟩, startAngle := 0 }

/-- Retry loop of `Track.generateSimpleLoopedTrack`: generate control
points, spline them, reject on center-line self-intersection, build
walls, reject on wall intersection; on rejection bump the attempt
counter, record the perturbed seed `seed + attempts * 1000` on the
track (the random stream itself is NOT re-seeded: the closure created
before the loop keeps advancing), and retry while fewer than
`maxAttempts` attempts were made.  The state of the last (possibly
failed) candidate is carried out of the loop. -/
def generateLoop (M : JsMath) (w h : ℚ) (seed : ℤ) (rng : ℕ → ℚ) :
    ℕ → ℕ → ℕ → Track → Track
  | 0, _, _, st => st
  | fuel + 1, attempts, k, st =>
    let (controlPoints, k1) := generateControlPoints M w h rng k
    let cl := catmullRomSpline controlPoints 15
    let st1 := { st with centerLine := cl }
    if hasSelfIntersection cl then
      let attempts1 := attempts + 1
      let st2 := if attempts1 < 20 then { st1 with seed := seed + attempts1 * 1000 }
        else st1
      generateLoop M w h seed rng fuel attempts1 k1 st2
    else
      let st2 := generateWallsFromCenterLine M st1
      if hasWallIntersection st2 then
        let attempts1 := attempts + 1
        let st3 := if attempts1 < 20 then { st2 with seed := seed + attempts1 * 1000 }
          else st2
        generateLoop M w h seed rng fuel attempts1 k1 st3
      else st2

/-- Embedding of `Track.generateSimpleLoopedTrack(w, h, seed)` from
`src/Track.ts` (spline-based version).  For `seed > 0` the random
stream is the seeded Mulberry32 generator; for `seed = 0` it is the
ambient `Math.random()` entropy, passed explicitly as `entropy`.  Up to
20 candidates are tried; the final state (validated or not) gets its
start pose from `findStartPoint`. -/
def Track.generateSimpleLoopedTrack (M : JsMath) (w h : ℚ) (seed : ℤ)
    (entropy : ℕ → ℚ) : Track :=
  let rng := if 0 < seed then seededRandom seed.toNat else entropy
  let st0 : Track :=
    { innerWalls := [], outerWalls := [], checkpoints := [],
      startPoint := ⟨0, 0⟩, startAngle := 0, seed := seed, centerLine := [] }
  findStartPoint M (generateLoop M w h seed rng 20 0 0 st0)

/-- State of a `Boid` from `src/Boid.ts`.  The per-instance constants
(`maxSpeed = 5`, `maxForce = 0.2`, `radius = 8`, `sensorLength = 100`,
the five sensor angles) are never mutated and live as module
definitions.  The network object is its serialized value; the forward
pass is supplied externally. -/
structure Boid where
  pos : Vec
  vel : Vec
  acc : Vec
  heading : ℚ
  isDead : Bool
  fitness : ℚ
  distanceTraveled : ℚ
  checkpointCount : ℕ
  frameAge : ℕ
  life : ℤ
  sensorRays : List Vec
  sensorDistances : List ℚ
  network : NeuralNetworkJSON
  lastInputs : List ℚ
  lastOutputs : List ℚ
  lastHiddenActivations : List (List ℚ)

/-- The `sensorAngles` array of `Boid`. -/
def sensorAngles : List ℚ := [-(jsPI / 2), -(jsPI / 4), 0, jsPI / 4, jsPI / 2]

/-- The `sensorLength` constant of `Boid` (`100`). -/
def sensorLength : ℚ := 100

/-- Embedding of the wall scan of one sensor ray in
`Boid.updateSensors`: nearest in-range intersection along the ray,
clamped distance (`sensorLength` when nothing is hit), and the recorded
ray end point. -/
def sensorRayScan (M : JsMath) (pos rayEnd : Vec) (walls : List (Vec × Vec)) :
    ℚ × Vec :=
  let scan := walls.foldl
    (fun (acc : ℚ × Option Vec) wall =>
      match getIntersection pos rayEnd wall.1 wall.2 with
      | some inter =>
        let d := pos.dist M ⟨inter.x, inter.y⟩
        if d < acc.1 then (d, some ⟨inter.x, inter.y⟩) else acc
      | none => acc)
    (sensorLength, none)
  (scan.1, scan.2.getD rayEnd)

/-- Embedding of `Boid.updateSensors`: cast the five sensor rays from
the current position and record clamped distances and hit points. -/
def Boid.updateSensors (M : JsMath) (t : Track) (b : Boid) : Boid :=
  let allWalls := t.innerWalls ++ t.outerWalls
  let scans := sensorAngles.map fun sa =>
    let angle := b.heading + sa
    let dir := Vec.fromAngle M angle sensorLength
    let rayEnd : Vec := ⟨b.pos.x + dir.x, b.pos.y + dir.y⟩
    sensorRayScan M b.pos rayEnd allWalls
  { b with sensorDistances := scans.map Prod.fst, sensorRays := scans.map Prod.snd }

/-- The `radius` constant of `Boid` (`8`). -/
def boidRadius : ℚ := 8

/-- Embedding of `Boid.checkCollisions`: die when the segment from the
current position to `position + velocity` crosses any wall, or when any
sensor distance is below the body radius. -/
def Boid.checkCollisions (t : Track) (b : Boid) : Boid :=
  let allWalls := t.innerWalls ++ t.outerWalls
  let nextPos : Vec := ⟨b.pos.x + b.vel.x, b.pos.y + b.vel.y⟩
  if allWalls.any fun wall => (getIntersection b.pos nextPos wall.1 wall.2).isSome then
    { b with isDead := true }
  else if b.sensorDistances.any fun d => d < boidRadius then
    { b with isDead := true }
  else b

/-- Embedding of `Boid.calculateHiddenActivations`: manual sigmoid
forward pass over the layers after the input placeholder, storing the
activations of every non-final weighted layer at its slot of the
existing `lastHiddenActivations` array. -/
def calculateHiddenActivationsGo (M : JsMath) (layerCount : ℕ) :
    List NeuralNetworkLayer → ℕ → List ℚ → List (List ℚ) → List (List ℚ)
  | [], _, _, stored => stored
  | layer :: rest, i, current, stored =>
    match layer.weights with
    | none => calculateHiddenActivationsGo M layerCount rest (i + 1) current stored
    | some w =>
      let biases := layer.biases.getD []
      let newActivations := w.map fun row =>
        let sum := (List.zip row current).foldl
          (fun s p => s + p.1 * p.2) (biases.getD 0 0)
        1 / (1 + M.exp (-sum))
      let stored1 := if i < layerCount - 1 then stored.set (i - 1) newActivations
        else stored
      calculateHiddenActivationsGo M layerCount rest (i + 1) newActivations stored1

/-- Embedding of `Boid.calculateHiddenActivations` (entry point):
starts from layer 1, skipping the input placeholder. -/
def calculateHiddenActivations (M : JsMath) (net : NeuralNetworkJSON)
    (inputs : List ℚ) (stored : List (List ℚ)) : List (List ℚ) :=
  calculateHiddenActivationsGo M net.layers.length (net.layers.drop 1) 1 inputs stored

/-- Embedding of `Boid.checkCheckpoints`: the next expected checkpoint
is at index `checkpointCount mod checkpoints.length`; crossing it on the
path from the previous position grants one count and 500 extra frames
of life, capped at 1000.  There is no guard for an empty checkpoint
list: in that case the JavaScript code dereferences `undefined` and
throws, modelled as `none`. -/
def Boid.checkCheckpoints (t : Track) (prevPos : Vec) (b : Boid) : Option Boid :=
  match t.checkpoints.get? (b.checkpointCount % t.checkpoints.length) with
  | none => none
  | some cp =>
    match getIntersection prevPos b.pos cp.1 cp.2 with
    | some _ =>
      some { b with checkpointCount := b.checkpointCount + 1,
                    life := min (b.life + 500) 1000 }
    | none => some b

/-- Fitness recomputation at the end of `Boid.update`: checkpoints are
the primary driver, the speed bonus rewards checkpoint cadence, and a
boid with no checkpoints earns nothing. -/
def fitnessFormula (checkpointCount frameAge : ℕ) : ℚ :=
  (checkpointCount : ℚ) * 1000 +
    (if 0 < checkpointCount then ((checkpointCount : ℚ) / (frameAge : ℚ)) * 10000
     else 0)

/-- Embedding of `Boid.update` from `src/Boid.ts`: no-op when dead;
sense, collide (possibly dying), run the network on normalized sensor
inputs, steer and thrust, integrate and damp the velocity, move, age,
die when life runs out, test the next checkpoint, and recompute the
fitness.  `output[0]`/`output[1]` of the opaque network are read with
default 0 (the network contract supplies two outputs). -/
def Boid.update (M : JsMath) (netRun : NeuralNetworkJSON → List ℚ → List ℚ)
    (t : Track) (b : Boid) : Option Boid :=
  if b.isDead then some b else
  let b1 := (b.updateSensors M t).checkCollisions t
  if b1.isDead then some b1 else
  let normalizedInputs := b1.sensorDistances.map fun d => d / sensorLength
  let output := netRun b1.network normalizedInputs
  let throttle := output.getD 0 0
  let steering := output.getD 1 0 * 2 - 1
  let heading1 := b1.heading + steering * 0.1
  let force := Vec.fromAngle M heading1 (throttle * 0.2)
  let acc1 := b1.acc.add force
  let vel1 := ((b1.vel.add acc1).limit M 5).mult 0.95
  let prevPos := b1.pos
  let b2 := { b1 with
    lastInputs := normalizedInputs
    lastOutputs := output
    lastHiddenActivations :=
      calculateHiddenActivations M b1.network normalizedInputs b1.lastHiddenActivations
    heading := heading1
    vel := vel1
    pos := b1.pos.add vel1
    acc := acc1.mult 0
    life := b1.life - 1 }
  if b2.life ≤ 0 then some { b2 with isDead := true } else
  match b2.checkCheckpoints t prevPos with
  | none => none
  | some b3 =>
    let b4 := { b3 with
      frameAge := b3.frameAge + 1
      distanceTraveled := b3.distanceTraveled + b3.vel.mag M }
    some { b4 with fitness := fitnessFormula b4.checkpointCount b4.frameAge }

/-- State of the `GeneticAlgorithm` controller from `src/AI.ts`. -/
structure GeneticAlgorithm where
  populationSize : ℕ
  mutationRate : ℚ
  boids : List Boid
  generation : ℤ
  timer : ℤ
  maxLifespan : ℤ
  eliteCount : ℕ
  tournamentSize : ℕ
  topParentsCount : ℕ

/-- Mutation of one weight row in `GeneticAlgorithm.mutate`: each
element draws a decision; when the decision draw is below the rate a
second draw perturbs the element by `draw * 2 - 1`. -/
def mutateRow (rate : ℚ) (rng : ℕ → ℚ) : List ℚ → ℕ → List ℚ × ℕ
  | [], k => ([], k)
  | x :: xs, k =>
    if rng k < rate then
      let x1 := x + (rng (k + 1) * 2 - 1)
      let (rest, k1) := mutateRow rate rng xs (k + 2)
      (x1 :: rest, k1)
    else
      let (rest, k1) := mutateRow rate rng xs (k + 1)
      (x :: rest, k1)

/-- Mutation of a whole weight matrix in `GeneticAlgorithm.mutate`. -/
def mutateMatrix (rate : ℚ) (rng : ℕ → ℚ) : List (List ℚ) → ℕ → List (List ℚ) × ℕ
  | [], k => ([], k)
  | row :: rows, k =>
    let (row1, k1) := mutateRow rate rng row k
    let (rest, k2) := mutateMatrix rate rng rows k1
    (row1 :: rest, k2)

/-- Mutation of one layer in `GeneticAlgorithm.mutate` (the version with
the `if (layer.biases)` guard, `src/AI.ts` lines 382-403): a layer
without a weight matrix is skipped entirely (`continue`), biases are
mutated only when present. -/
def mutateLayer (rate : ℚ) (rng : ℕ → ℚ) (l : NeuralNetworkLayer) (k : ℕ) :
    NeuralNetworkLayer × ℕ :=
  match l.weights with
  | none => (l, k)
  | some w =>
    let (w1, k1) := mutateMatrix rate rng w k
    match l.biases with
    | none => ({ weights := some w1, biases := none }, k1)
    | some bs =>
      let (bs1, k2) := mutateRow rate rng bs k1
      ({ weights := some w1, biases := some bs1 }, k2)

/-- Layer list worker for `GeneticAlgorithm.mutate`. -/
def mutateLayers (rate : ℚ) (rng : ℕ → ℚ) :
    List NeuralNetworkLayer → ℕ → List NeuralNetworkLayer × ℕ
  | [], k => ([], k)
  | l :: ls, k =>
    let (l1, k1) := mutateLayer rate rng l k
    let (rest, k2) := mutateLayers rate rng ls k1
    (l1 :: rest, k2)

/-- Embedding of `GeneticAlgorithm.mutate(networkJSON, rate)`: mutate
every weight and bias of every weight-carrying layer with per-element
probability `rate`, adding an independent uniform perturbation in
`[-1, 1)`. -/
def GeneticAlgorithm.mutate (net : NeuralNetworkJSON) (rate : ℚ)
    (rng : ℕ → ℚ) (k : ℕ) : NeuralNetworkJSON × ℕ :=
  let (ls, k1) := mutateLayers rate rng net.layers k
  (⟨ls⟩, k1)

/-- Blend of one weight row in `GeneticAlgorithm.crossover`: the child
element is `p1 * blend + p2 * (1 - blend)` for an independent draw per
element.  The JavaScript code reads `p2Layer.weights[j][k]`; a parent-2
row shorter than the child row would make that `undefined` and poison
the child with `NaN`, modelled as `none`. -/
def blendRow (rng : ℕ → ℚ) : List ℚ → List ℚ → ℕ → Option (List ℚ × ℕ)
  | [], _, k => some ([], k)
  | _ :: _, [], _ => none
  | x :: xs, y :: ys, k =>
    let blend := rng k
    match blendRow rng xs ys (k + 1) with
    | none => none
    | some (rest, k1) => some ((x * blend + y * (1 - blend)) :: rest, k1)

/-- Blend of a whole weight matrix in `GeneticAlgorithm.crossover`.  A
missing parent-2 row (`p2Layer.weights[j]` = `undefined`) would throw in
JavaScript, modelled as `none`. -/
def blendMatrix (rng : ℕ → ℚ) : List (List ℚ) → List (List ℚ) → ℕ →
    Option (List (List ℚ) × ℕ)
  | [], _, k => some ([], k)
  | _ :: _, [], _ => none
  | r :: rs, r2 :: rs2, k =>
    match blendRow rng r r2 k with
    | none => none
    | some (r1, k1) =>
      match blendMatrix rng rs rs2 k1 with
      | none => none
      | some (rest, k2) => some (r1 :: rest, k2)

/-- Crossover of one child layer (a clone of parent 1) with the
corresponding parent-2 layer in `GeneticAlgorithm.crossover`: weights
are blended only when both sides carry weights, biases only when both
sides carry biases; otherwise the parent-1 clone is kept. -/
def crossoverLayer (rng : ℕ → ℚ) (l1 : NeuralNetworkLayer)
    (l2 : Option NeuralNetworkLayer) (k : ℕ) : Option (NeuralNetworkLayer × ℕ) :=
  let wStep : Option (Option (List (List ℚ)) × ℕ) :=
    match l1.weights, l2.bind (·.weights) with
    | some w1, some w2 =>
      match blendMatrix rng w1 w2 k with
      | none => none
      | some (w, k1) => some (some w, k1)
    | w1, _ => some (w1, k)
  match wStep with
  | none => none
  | some (w, k1) =>
    match l1.biases, l2.bind (·.biases) with
    | some b1, some b2 =>
      match blendRow rng b1 b2 k1 with
      | none => none
      | some (b, k2) => some (⟨w, some b⟩, k2)
    | b1, _ => some (⟨w, b1⟩, k1)

/-- Layer list worker for `GeneticAlgorithm.crossover`: the loop runs
over the child's (= parent 1's) layers; a missing parent-2 layer
(`parent2JSON.layers[i]` = `undefined`) just skips the blending. -/
def crossoverLayers (rng : ℕ → ℚ) :
    List NeuralNetworkLayer → List NeuralNetworkLayer → ℕ →
    Option (List NeuralNetworkLayer × ℕ)
  | [], _, k => some ([], k)
  | l1 :: ls1, ls2, k =>
    match crossoverLayer rng l1 ls2.head? k with
    | none => none
    | some (l, k1) =>
      match crossoverLayers rng ls1 ls2.tail k1 with
      | none => none
      | some (rest, k2) => some (l :: rest, k2)

/-- Embedding of `GeneticAlgorithm.crossover(parent1JSON, parent2JSON)`:
deep-clone parent 1, then blend every weight and bias with parent 2
using an independent random blend factor per element. -/
def GeneticAlgorithm.crossover (p1 p2 : NeuralNetworkJSON) (rng : ℕ → ℚ)
    (k : ℕ) : Option (NeuralNetworkJSON × ℕ) :=
  match crossoverLayers rng p1.layers p2.layers k with
  | none => none
  | some (ls, k1) => some (⟨ls⟩, k1)

/-- Tournament loop of `GeneticAlgorithm.selectParent`: draw an index
uniformly (`Math.floor(Math.random() * boids.length)`), keep the
candidate when there is no current best or it is strictly fitter.  An
out-of-range index (possible only for draws outside `[0, 1)`) would
dereference `undefined` in JavaScript, modelled as `none`. -/
def selectParentGo (boids : List Boid) (rng : ℕ → ℚ) :
    ℕ → ℕ → Option Boid → Option (Option Boid)
  | 0, _, best => some best
  | r + 1, k, best =>
    let idx := (⌊rng k * (boids.length : ℚ)⌋).toNat
    match boids.get? idx with
    | none => none
    | some candidate =>
      let best1 :=
        match best with
        | none => some candidate
        | some b => if b.fitness < candidate.fitness then some candidate else some b
      selectParentGo boids rng r (k + 1) best1

/-- Embedding of `GeneticAlgorithm.selectParent()`: sample
`tournamentSize` boids uniformly with replacement and return the
fittest; with `tournamentSize = 0` the TypeScript non-null assertion
returns `null`, modelled as `none`. -/
def GeneticAlgorithm.selectParent (ga : GeneticAlgorithm) (rng : ℕ → ℚ)
    (k : ℕ) : Option (Boid × ℕ) :=
  match selectParentGo ga.boids rng ga.tournamentSize k none with
  | none => none
  | some none => none
  | some (some b) => some (b, k + ga.tournamentSize)

/-- Stable insertion of a boid into a fitness-descending list, used to
model `boids.sort((a, b) => b.fitness - a.fitness)`. -/
def insertByFitness (b : Boid) : List Boid → List Boid
  | [] => [b]
  | c :: cs => if c.fitness < b.fitness then b :: c :: cs
    else c :: insertByFitness b cs

/-- Model of the in-place `Array.prototype.sort` with comparator
`(a, b) => b.fitness - a.fitness`: a stable sort by descending
fitness. -/
def sortByFitnessDesc : List Boid → List Boid
  | [] => []
  | b :: bs => insertByFitness b (sortByFitnessDesc bs)

/-- Embedding of `new Boid(x, y, startAngle)` from `src/Boid.ts`
followed by `network.fromJSON(net)`: fresh kinematic state at the start
pose, initial velocity `0.1` along the heading, 500 frames of life, and
the given network.  (The constructor's randomly scrambled fresh network
is immediately overwritten by `fromJSON` at every use site inside
`nextGeneration`, so the embedding takes the network directly.) -/
def mkBoid (M : JsMath) (x y startAngle : ℚ) (net : NeuralNetworkJSON) : Boid :=
  { pos := ⟨x, y⟩
    vel := Vec.fromAngle M startAngle 0.1
    acc := ⟨0, 0⟩
    heading := startAngle
    isDead := false
    fitness := 0
    distanceTraveled := 0
    checkpointCount := 0
    frameAge := 0
    life := 500
    sensorRays := []
    sensorDistances := []
    network := net
    lastInputs := [0, 0, 0, 0, 0]
    lastOutputs := [0, 0]
    lastHiddenActivations := [[0, 0, 0, 0], [0, 0, 0, 0]] }

/-- Crossover-children loop of `GeneticAlgorithm.nextGeneration`
(`while (newBoids.length < populationSize)`): select two parents by
tournament, blend them, mutate the child at `mutationRate`.  The fuel
argument bounds the iteration count; each iteration adds exactly one
boid, so `populationSize` units of fuel suffice. -/
def fillChildren (M : JsMath) (x y angle : ℚ) (ga : GeneticAlgorithm)
    (rng : ℕ → ℚ) : ℕ → List Boid → ℕ → Option (List Boid × ℕ)
  | 0, acc, k => some (acc, k)
  | fuel + 1, acc, k =>
    if ga.populationSize ≤ acc.length then some (acc, k)
    else
      match ga.selectParent rng k with
      | none => none
      | some (parent1, k1) =>
        match ga.selectParent rng k1 with
        | none => none
        | some (parent2, k2) =>
          match GeneticAlgorithm.crossover parent1.network parent2.network rng k2 with
          | none => none
          | some (childJSON, k3) =>
            let (mutatedJSON, k4) := GeneticAlgorithm.mutate childJSON ga.mutationRate rng k3
            fillChildren M x y angle ga rng fuel (acc ++ [mkBoid M x y angle mutatedJSON]) k4

/-- Embedding of `GeneticAlgorithm.nextGeneration(x, y, angle)` from
`src/AI.ts` (lines 330-380): sort by fitness descending (in place, so
later phases see the sorted list), keep `eliteCount` clones of the top
performers, fill up to `floor(populationSize * 0.2)` with clones of the
best mutated at rate `0.2`, fill the remainder with mutated crossover
children of tournament-selected parents, then advance the generation
counter.  An empty population would dereference `undefined`
(`this.boids[0]`), modelled as `none`.  (`Math.floor(n * 0.2)` on a
whole population size is exactly `n / 5` in natural division.)  The
`localStorage` writes persist the best network and the new counter and
have no effect on the controller state, so they are not modelled. -/
def GeneticAlgorithm.nextGeneration (M : JsMath) (x y angle : ℚ)
    (ga : GeneticAlgorithm) (rng : ℕ → ℚ) (k : ℕ) :
    Option (GeneticAlgorithm × ℕ) :=
  let sorted := sortByFitnessDesc ga.boids
  match sorted.head? with
  | none => none
  | some best =>
    let ga1 := { ga with boids := sorted }
    let elites := (sorted.take ga.eliteCount).map fun b => mkBoid M x y angle b.network
    let mutatedEliteCount := ga.populationSize / 5
    let phase2 :=
      (List.range (mutatedEliteCount - elites.length)).foldl
        (fun (acc : List Boid × ℕ) _ =>
          let (json, k1) := GeneticAlgorithm.mutate best.network 0.2 rng acc.2
          (acc.1 ++ [mkBoid M x y angle json], k1))
        (elites, k)
    match fillChildren M x y angle ga1 rng ga.populationSize phase2.1 phase2.2 with
    | none => none
    | some (newBoids, k1) =>
      some ({ ga1 with boids := newBoids, generation := ga.generation + 1 }, k1)

/-- The all-dead test of `GeneticAlgorithm.update` (the loop clears the
`allDead` flag on every living boid). -/
def allDeadB (bs : List Boid) : Bool := bs.all (·.isDead)

/-- Embedding of `GeneticAlgorithm.update(track)` from `src/AI.ts`
(lines 262-274): advance the per-generation timer, update every boid,
and when every boid is dead or the timer exceeds `maxLifespan`, run
`nextGeneration` at the track's start pose and reset the timer to 0. -/
def GeneticAlgorithm.update (M : JsMath)
    (netRun : NeuralNetworkJSON → List ℚ → List ℚ) (t : Track)
    (ga : GeneticAlgorithm) (rng : ℕ → ℚ) (k : ℕ) :
    Option (GeneticAlgorithm × ℕ) :=
  let timer1 := ga.timer + 1
  match ga.boids.mapM (Boid.update M netRun t) with
  | none => none
  | some bs =>
    if allDeadB bs || decide (ga.maxLifespan < timer1) then
      match GeneticAlgorithm.nextGeneration M t.startPoint.x t.startPoint.y
          t.startAngle { ga with boids := bs, timer := timer1 } rng k with
      | none => none
      | some (ga1, k1) => some ({ ga1 with timer := 0 }, k1)
    else some ({ ga with boids := bs, timer := timer1 }, k)

/-- A parsed `network` object of an imported brain document
(`importBrain` in `src/panels/SaveLoadPanel.ts`): its `layers` field may
be missing.  (`data.network?.layers` is the acceptance test; a present
`layers` array, even empty, is truthy.) -/
structure ImportedNetwork where
  layers : Option (List NeuralNetworkLayer)

/-- A parsed brain document of `importBrain`:
`{ generation?, fitness?, network? }`. -/
structure BrainDoc where
  network : Option ImportedNetwork
  generation : Option ℤ
  fitness : Option ℚ

/-- The application state touched by `importBrain`: the controller, the
two durable `localStorage` values (`best_boid_brain` and
`current_generation`), and the user-visible status line written by
`setStatus`. -/
structure SimStore where
  ga : Option GeneticAlgorithm
  storedBrain : Option NeuralNetworkJSON
  storedGeneration : Option ℤ
  status : String

/-- Embedding of `importBrain` from `src/panels/SaveLoadPanel.ts`
(lines 124-142), applied to an already parsed document: reject with a
user-visible message when `network.layers` is missing; otherwise
overwrite boid 0's network, persist the network, and apply the
generation counter when truthy (a zero generation is falsy in
JavaScript and is ignored).  An empty population would throw on
`ga.boids[0].network` and land in the `catch` that shows the error
message. -/
def importBrain (doc : BrainDoc) (st : SimStore) : SimStore :=
  match doc.network with
  | none => { st with status := "Invalid brain file" }
  | some netDoc =>
    match netDoc.layers with
    | none => { st with status := "Invalid brain file" }
    | some layers =>
      match st.ga with
      | none => st
      | some ga =>
        match ga.boids with
        | [] => { st with status := "TypeError" }
        | b0 :: rest =>
          let ga1 := { ga with boids := { b0 with network := ⟨layers⟩ } :: rest }
          let st1 := { st with ga := some ga1, storedBrain := some ⟨layers⟩ }
          match doc.generation with
          | some g =>
            if g ≠ 0 then
              { st1 with ga := some { ga1 with generation := g },
                         storedGeneration := some g, status := "Brain imported" }
            else { st1 with status := "Brain imported" }
          | none => { st1 with status := "Brain imported" }

/-- Per-tick observation of the population, as used by the termination
triggers the specification describes: each agent's death flag and
fitness. -/
abbrev TickObs := List (Bool × ℚ)

/-- Observation of a boid list at the end of a tick. -/
def observeBoids (bs : List Boid) : TickObs := bs.map fun b => (b.isDead, b.fitness)

/-- Best fitness ever seen over a history of tick observations. -/
def bestFitness (hist : List TickObs) : ℚ :=
  (hist.flatMap fun s => s.map Prod.snd).foldr max 0

/-- Spec condition "every agent is dead" at the end of the last tick of
the history. -/
def specAllDead (hist : List TickObs) : Prop :=
  ∀ a ∈ (hist.getLast?.getD []), a.1 = true

/-- Spec condition "the per-generation timer exceeds maxLifespan" (the
timer equals the number of elapsed ticks). -/
def specTimerExceeded (hist : List TickObs) (maxLifespan : ℤ) : Prop :=
  maxLifespan < (hist.length : ℤ)

/-- Spec condition "within the final 500 ticks of `maxLifespan` with no
fitness improvement in the last 500 ticks": the running best fitness did
not increase during the last 500 ticks. -/
def specLateStagnation (hist : List TickObs) (maxLifespan : ℤ) : Prop :=
  maxLifespan - 500 < (hist.length : ℤ) ∧
    bestFitness hist ≤ bestFitness (hist.take (hist.length - 500))

/-- Spec condition "the generation's best-ever fitness has had no living
agent at or above it for 500 consecutive ticks". -/
def specBestDiedOut (hist : List TickObs) : Prop :=
  500 ≤ hist.length ∧
    ∀ snap ∈ hist.drop (hist.length - 500), ∀ a ∈ snap,
      a.1 = true ∨ a.2 < bestFitness hist

/-- The claimed disjunction of generation-termination triggers: all
dead, timer exceeded, late stagnation, or best-died-out (claim C2). -/
def specGenerationEnds (hist : List TickObs) (maxLifespan : ℤ) : Prop :=
  specAllDead hist ∨ specTimerExceeded hist maxLifespan ∨
    specLateStagnation hist maxLifespan ∨ specBestDiedOut hist

/-- A concrete conformant interpretation of the opaque `Math`
functions, used for explicit evaluations: `cos` constantly 1, the other
functions constantly 0. -/
def M0 : JsMath :=
  { cos := fun _ => 1, sin := fun _ => 0, sqrt := fun _ => 0,
    exp := fun _ => 0, atan2 := fun _ _ => 0 }

/-- A concrete opaque forward pass: throttle 0, steering output 1/2
(mapped to a steering of 0). -/
def netRun0 : NeuralNetworkJSON → List ℚ → List ℚ := fun _ _ => [0, 1 / 2]

/-- A small concrete network: one layer, one weight, one bias. -/
def netW : NeuralNetworkJSON := ⟨[⟨some [[3]], some [4]⟩]⟩

/-- A concrete track for evaluations: no walls, a single checkpoint at
`x = 5` well away from the boids. -/
def track0 : Track :=
  { innerWalls := [], outerWalls := [], checkpoints := [(⟨5, -1⟩, ⟨5, 1⟩)],
    startPoint := ⟨5 / 2, 0⟩, startAngle := 0, seed := 0, centerLine := [] }

/-- The all-zero entropy stream. -/
def rngZero : ℕ → ℚ := fun _ => 0

/-- The constant one-half entropy stream. -/
def rngHalf : ℕ → ℚ := fun _ => 1 / 2

/-- A fresh live boid at the origin. -/
def b0 : Boid := mkBoid M0 0 0 0 netW

/-- The state of `b0` after one `Boid.update` against `track0` under
`M0`/`netRun0`: sensors report full clearance, the boid inches forward,
ages one frame and earns no fitness. -/
def b0Post : Boid :=
  { b0 with
    vel := ⟨19 / 200, 0⟩
    pos := ⟨19 / 200, 0⟩
    life := 499
    frameAge := 1
    sensorDistances := [100, 100, 100, 100, 100]
    sensorRays := [⟨100, 0⟩, ⟨100, 0⟩, ⟨100, 0⟩, ⟨100, 0⟩, ⟨100, 0⟩]
    lastInputs := [1, 1, 1, 1, 1]
    lastOutputs := [0, 1 / 2] }

/-- Fitness trace of the stagnation counterexample: a single agent that
crossed its only checkpoint at tick 1 and then idles, so its fitness
`1000 + 10000 / t` decays forever after. -/
def fitHist (t : ℕ) : ℚ := 1000 + 10000 / (t : ℚ)

/-- History of 501 tick observations of that agent (tick `t` is entry
`t - 1`): alive throughout, fitness decaying from 11000. -/
def histC : List TickObs :=
  (List.range 501).map fun t => [(false, fitHist (t + 1))]

/-- The idling agent behind `histC` at the start of tick 501: one
checkpoint crossed at tick 1 (so 999 frames of life were available),
stationary at the origin. -/
def bC : Boid :=
  { mkBoid M0 0 0 0 netW with
    vel := ⟨0, 0⟩
    checkpointCount := 1
    frameAge := 500
    life := 499
    fitness := fitHist 500 }

/-- The state of `bC` after tick 501: still alive, one frame older,
fitness decayed to `fitHist 501`. -/
def bCPost : Boid :=
  { bC with
    life := 498
    frameAge := 501
    fitness := fitHist 501
    sensorDistances := [100, 100, 100, 100, 100]
    sensorRays := [⟨100, 0⟩, ⟨100, 0⟩, ⟨100, 0⟩, ⟨100, 0⟩, ⟨100, 0⟩]
    lastInputs := [1, 1, 1, 1, 1]
    lastOutputs := [0, 1 / 2] }

/-- Controller state at the start of tick 501 of the stagnation
counterexample: one live agent, timer 500, `maxLifespan` configured to
600 (the lifespan slider ranges over 200-5000). -/
def gaC : GeneticAlgorithm :=
  { populationSize := 1, mutationRate := 0.1, boids := [bC], generation := 7,
    timer := 500, maxLifespan := 600, eliteCount := 1, tournamentSize := 3,
    topParentsCount := 5 }

/-- The controller state after tick 501: the boid updated, the timer
advanced, the generation NOT ended. -/
def gaCPost : GeneticAlgorithm :=
  { gaC with boids := [bCPost], timer := 501 }

/-- A dead boid at the start pose of `track0`. -/
def bDead : Boid := { mkBoid M0 (5 / 2) 0 0 netW with isDead := true }

/-- A one-boid controller whose only agent is dead, about to transition
on the next tick. -/
def gaW : GeneticAlgorithm :=
  { populationSize := 1, mutationRate := 0.1, boids := [bDead], generation := 3,
    timer := 0, maxLifespan := 2000, eliteCount := 1, tournamentSize := 3,
    topParentsCount := 5 }

/-- The controller state produced by the tick on `gaW`: one fresh elite
clone, generation advanced, timer reset. -/
def gaWPost : GeneticAlgorithm :=
  { gaW with boids := [mkBoid M0 (5 / 2) 0 0 netW], generation := 4, timer := 0 }

/-- A four-boid controller in which every agent has died, matching the
spec's end-to-end scenario with `populationSize = 4`. -/
def ga4 : GeneticAlgorithm :=
  { populationSize := 4, mutationRate := 0.1,
    boids := [bDead, bDead, bDead, bDead], generation := 3, timer := 0,
    maxLifespan := 2000, eliteCount := 2, tournamentSize := 3,
    topParentsCount := 5 }

/-- A boid with a given fitness, for the tournament-selection spec. -/
def bFit (f : ℚ) : Boid := { mkBoid M0 0 0 0 netW with fitness := f }

/-- A two-boid controller with distinct fitness values and tournament
size 2. -/
def ga8 : GeneticAlgorithm :=
  { populationSize := 2, mutationRate := 0.1, boids := [bFit 1, bFit 5],
    generation := 1, timer := 0, maxLifespan := 2000, eliteCount := 1,
    tournamentSize := 2, topParentsCount := 5 }

/-- An import document whose `network` object lacks `layers`. -/
def docBad : BrainDoc := ⟨some ⟨none⟩, some 5, none⟩

/-- An import document carrying `network.layers`. -/
def docGood : BrainDoc := ⟨some ⟨some netW.layers⟩, some 5, none⟩

/-- An application state for the import scenarios. -/
def store0 : SimStore :=
  { ga := some gaW, storedBrain := none, storedGeneration := none, status := "" }

/-- Shape of a serialized network: per layer, the row lengths of the
weight matrix and the length of the bias vector (when present).  Two
networks of equal shape can be crossed over without hitting undefined
entries. -/
def netShape (n : NeuralNetworkJSON) : List (Option (List ℕ) × Option ℕ) :=
  n.layers.map fun l => (l.weights.map fun w => w.map List.length,
    l.biases.map List.length)

/-- Row `r1` arises from `r` by adding an independent perturbation
`d * 2 - 1` with a draw `d ∈ [0, 1)` to every element. -/
def rowPerturbed (r r1 : List ℚ) : Prop :=
  r1.length = r.length ∧
    ∀ t, t < r.length → ∃ d, 0 ≤ d ∧ d < 1 ∧
      r1.getD t 0 = r.getD t 0 + (d * 2 - 1)

/-- Matrix `w1` arises from `w` by perturbing every element. -/
def matrixPerturbed (w w1 : List (List ℚ)) : Prop :=
  w1.length = w.length ∧ ∀ j, j < w.length → rowPerturbed (w.getD j []) (w1.getD j [])

/-- Relation between a layer and its image under `mutate` at rate 1:
layers without weights pass through unchanged; in a weight-carrying
layer every weight and every present bias receives a perturbation
`d * 2 - 1` for an independent draw `d ∈ [0, 1)`. -/
def mutatedAtRateOne (l l1 : NeuralNetworkLayer) : Prop :=
  match l.weights with
  | none => l1 = l
  | some w => ∃ w1, l1.weights = some w1 ∧ matrixPerturbed w w1 ∧
      ((l.biases = none ∧ l1.biases = none) ∨
        (∃ bs bs1, l.biases = some bs ∧ l1.biases = some bs1 ∧ rowPerturbed bs bs1))

/-- Fallback boid for list indexing in specification statements (never
reached on in-range indices). -/
def defaultBoid : Boid := mkBoid M0 0 0 0 ⟨[]⟩

/-- The agents sampled by one run of `selectParent`: for each of the
`size` tournament slots, the boid at index
`floor(draw * boids.length)`. -/
def tournamentSamples (boids : List Boid) (rng : ℕ → ℚ) (k size : ℕ) : List Boid :=
  (List.range size).map fun i =>
    boids.getD ((⌊rng (k + i) * (boids.length : ℚ)⌋).toNat) defaultBoid

/-- The tournament accumulator as a fold: keep the strictly fitter
candidate, the first found on ties. -/
def tourFold (best : Option Boid) (S : List Boid) : Option Boid :=
  S.foldl
    (fun acc c =>
      match acc with
      | none => some c
      | some b => if b.fitness < c.fitness then some c else some b)
    best

/-- The initial track state built by `generateSimpleLoopedTrack` at
seed 0, before the generation loop runs. -/
def trackInit : Track :=
  { innerWalls := [], outerWalls := [], checkpoints := [],
    startPoint := ⟨0, 0⟩, startAngle := 0, seed := 0, centerLine := [] }

/-- A math object for the seed-0 failure run: cosine and sine take
designed values at the four control-point angles shaping the first
spline block (indices 13, 0, 1 and 2) and harmless defaults elsewhere.
The resulting first spline block loops back on itself, so every
candidate center line fails the self-intersection check. -/
def M1 : JsMath :=
  { cos := fun q =>
      if q = 0 then 0
      else if q = 1 / 14 * jsPI * 2 then 120 / 7
      else if q = 2 / 14 * jsPI * 2 then 120
      else if q = 13 / 14 * jsPI * 2 then 15
      else 1,
    sin := fun q =>
      if q = 0 then 0
      else if q = 1 / 14 * jsPI * 2 then -110 / 63
      else if q = 2 / 14 * jsPI * 2 then -520 / 63
      else if q = 13 / 14 * jsPI * 2 then -190 / 63
      else 0,
    sqrt := fun _ => 0, exp := fun _ => 0, atan2 := fun _ _ => 0 }

/-- The fourteen control points every attempt of the seed-0 failure
run draws under `M1` and the all-zero entropy stream: canvas center
plus the minimum radius 315 along the crafted cosine/sine values. -/
def ptsM1 : List Vec :=
  (List.range 14).map fun t : ℕ =>
    ⟨600 + 315 * M1.cos ((t : ℚ) / 14 * jsPI * 2),
     600 + 315 * M1.sin ((t : ℚ) / 14 * jsPI * 2)⟩

/-- The (self-intersecting) center line of the seed-0 failure run. -/
def clM1 : List Vec := catmullRomSpline ptsM1 15

/- Theorems: helper lemmas first where needed, then one theorem per
claim, with a witness or counterexample where required. -/

/-- C10: for every update of a live agent against a track with a
non-empty checkpoint list, the checkpoint index
`checkpointCount mod checkpoints.length` is in bounds, the checkpoint
lookup in `checkCheckpoints` succeeds, and `Boid.update` is
well-defined; the non-empty list is a precondition, there is no guard
for the empty case. -/
theorem C10_checkpoint_index_in_bounds (tr : Track)
    (hne : tr.checkpoints ≠ []) :
    (∀ b : Boid, b.checkpointCount % tr.checkpoints.length < tr.checkpoints.length) ∧
    (∀ (prevPos : Vec) (b : Boid), (Boid.checkCheckpoints tr prevPos b).isSome = true) ∧
    (∀ (M : JsMath) (netRun : NeuralNetworkJSON → List ℚ → List ℚ) (b : Boid),
      (Boid.update M netRun tr b).isSome = true) := by
  have hlen : 0 < tr.checkpoints.length := List.length_pos.mpr hne
  have hidx : ∀ b : Boid,
      b.checkpointCount % tr.checkpoints.length < tr.checkpoints.length :=
    fun b => Nat.mod_lt _ hlen
  have hcp : ∀ (prevPos : Vec) (b : Boid),
      (Boid.checkCheckpoints tr prevPos b).isSome = true := by
    intro prevPos b
    unfold Boid.checkCheckpoints
    rw [List.get?_eq_get (hidx b)]
    split
    next heq => exact absurd heq (by simp)
    next cp heq => split <;> simp
  refine ⟨hidx, hcp, ?_⟩
  intro M netRun b
  unfold Boid.update
  dsimp only
  split
  · simp
  · split
    · simp
    · split
      · simp
      · obtain ⟨b3, hb3⟩ := Option.isSome_iff_exists.mp (hcp _ _)
        rw [hb3]
        simp

/-- Witness for C10 at the concrete one-checkpoint track `track0`. -/
theorem C10_witness :
    b0.checkpointCount % track0.checkpoints.length < track0.checkpoints.length ∧
    (Boid.checkCheckpoints track0 ⟨0, 0⟩ b0).isSome = true ∧
    (Boid.update M0 netRun0 track0 b0).isSome = true :=
  ⟨(C10_checkpoint_index_in_bounds track0 (by simp [track0])).1 b0,
   (C10_checkpoint_index_in_bounds track0 (by simp [track0])).2.1 ⟨0, 0⟩ b0,
   (C10_checkpoint_index_in_bounds track0 (by simp [track0])).2.2 M0 netRun0 b0⟩

/-- C5: after every `Boid.update` that leaves the agent alive, the
fitness equals `checkpointCount * 1000` plus, when `checkpointCount` is
positive, `(checkpointCount / frameAge) * 10000`; in particular an agent
with no checkpoints has fitness 0, and an agent crossing its first
checkpoint at `frameAge = 10` has fitness 2000. -/
theorem C5_fitness_formula_after_update (M : JsMath)
    (netRun : NeuralNetworkJSON → List ℚ → List ℚ) (tr : Track) (b b1 : Boid)
    (hup : Boid.update M netRun tr b = some b1) (halive : b1.isDead = false) :
    b1.fitness = fitnessFormula b1.checkpointCount b1.frameAge ∧
    (b1.checkpointCount = 0 → b1.fitness = 0) ∧
    (b1.checkpointCount = 1 → b1.frameAge = 10 → b1.fitness = 2000) := by
  have hmain : b1.fitness = fitnessFormula b1.checkpointCount b1.frameAge := by
    unfold Boid.update at hup
    dsimp only at hup
    split at hup
    next hdead =>
      obtain rfl := Option.some.inj hup
      rw [hdead] at halive
      exact absurd halive (by simp)
    next =>
      split at hup
      next hdead =>
        obtain rfl := Option.some.inj hup
        rw [hdead] at halive
        exact absurd halive (by simp)
      next =>
        split at hup
        next =>
          obtain rfl := Option.some.inj hup
          simp at halive
        next =>
          split at hup
          next => exact absurd hup (by simp)
          next b3 heq =>
            obtain rfl := Option.some.inj hup
            rfl
  refine ⟨hmain, ?_, ?_⟩
  · intro h0
    rw [hmain, h0]
    simp [fitnessFormula]
  · intro h1 h10
    rw [hmain, h1, h10]
    norm_num [fitnessFormula]

/-- Witness for C5: one concrete live update of `b0` against `track0`
(the boid survives with no checkpoint and fitness 0). -/
theorem C5_witness :
    b0Post.fitness = fitnessFormula b0Post.checkpointCount b0Post.frameAge ∧
    (b0Post.checkpointCount = 0 → b0Post.fitness = 0) ∧
    (b0Post.checkpointCount = 1 → b0Post.frameAge = 10 → b0Post.fitness = 2000) :=
  C5_fitness_formula_after_update M0 netRun0 track0 b0 b0Post
    (by
      norm_num [Boid.update, Boid.updateSensors, Boid.checkCollisions, sensorRayScan,
        sensorAngles, sensorLength, Vec.fromAngle, Vec.add, Vec.mult, Vec.limit,
        Vec.mag, Vec.getNormalized, Vec.dist, M0, netRun0, b0, mkBoid, netW, track0,
        b0Post, Boid.checkCheckpoints, getIntersection, calculateHiddenActivations,
        calculateHiddenActivationsGo, fitnessFormula, boidRadius])
    (by simp [b0Post, b0, mkBoid])

/-- Blending a row with itself returns it unchanged for any draws:
`x * b + x * (1 - b) = x` exactly. -/
theorem blendRow_self (rng : ℕ → ℚ) (r : List ℚ) : ∀ k : ℕ,
    blendRow rng r r k = some (r, k + r.length) := by
  induction r with
  | nil => intro k; simp [blendRow]
  | cons x xs ih =>
    intro k
    rw [blendRow, ih (k + 1)]
    have hx : x * rng k + x * (1 - rng k) = x := by ring
    simp [hx]
    omega

/-- Blending a matrix with itself returns it unchanged. -/
theorem blendMatrix_self (rng : ℕ → ℚ) (w : List (List ℚ)) : ∀ k : ℕ,
    ∃ k1, blendMatrix rng w w k = some (w, k1) := by
  induction w with
  | nil => intro k; exact ⟨k, by simp [blendMatrix]⟩
  | cons r rs ih =>
    intro k
    obtain ⟨k1, h1⟩ := ih (k + r.length)
    refine ⟨k1, ?_⟩
    rw [blendMatrix, blendRow_self]
    dsimp only
    rw [h1]

/-- Crossing a layer over with itself keeps it unchanged. -/
theorem crossoverLayer_self (rng : ℕ → ℚ) (l : NeuralNetworkLayer) (k : ℕ) :
    ∃ k1, crossoverLayer rng l (some l) k = some (l, k1) := by
  obtain ⟨ow, ob⟩ := l
  rcases ow with _ | w <;> rcases ob with _ | bs
  · exact ⟨k, by simp [crossoverLayer]⟩
  · exact ⟨k + bs.length, by simp [crossoverLayer, blendRow_self]⟩
  · obtain ⟨k1, h1⟩ := blendMatrix_self rng w k
    exact ⟨k1, by simp [crossoverLayer, h1]⟩
  · obtain ⟨k1, h1⟩ := blendMatrix_self rng w k
    exact ⟨k1 + bs.length, by simp [crossoverLayer, h1, blendRow_self]⟩

/-- Crossing a layer list over with itself keeps it unchanged. -/
theorem crossoverLayers_self (rng : ℕ → ℚ) (ls : List NeuralNetworkLayer) :
    ∀ k : ℕ, ∃ k1, crossoverLayers rng ls ls k = some (ls, k1) := by
  induction ls with
  | nil => intro k; exact ⟨k, by simp [crossoverLayers]⟩
  | cons l ls1 ih =>
    intro k
    obtain ⟨k2, h2⟩ := crossoverLayer_self rng l k
    obtain ⟨k3, h3⟩ := ih k2
    refine ⟨k3, ?_⟩
    rw [crossoverLayers]
    simp only [List.head?_cons, List.tail_cons, h2]
    rw [h3]

/-- C6: crossover of two parent networks with numerically identical
weight matrices and bias vectors returns a child numerically identical
to the parents, for any blend factors drawn; each child element is
`p1 * b + p2 * (1 - b)` for its independent draw `b`, so identical
parents are a fixed point, and placeholder layers without weights are
skipped unchanged. -/
theorem C6_crossover_identical_parents (p : NeuralNetworkJSON) (rng : ℕ → ℚ)
    (k : ℕ) : (GeneticAlgorithm.crossover p p rng k).map Prod.fst = some p := by
  obtain ⟨k1, h⟩ := crossoverLayers_self rng p.layers k
  unfold GeneticAlgorithm.crossover
  rw [h]
  rfl

/-- With rate 0, a row is never mutated (the decision draw, being
nonnegative, is never below 0). -/
theorem mutateRow_rate_zero (rng : ℕ → ℚ) (hr : ∀ m, 0 ≤ rng m) (r : List ℚ) :
    ∀ k : ℕ, mutateRow 0 rng r k = (r, k + r.length) := by
  induction r with
  | nil => intro k; simp [mutateRow]
  | cons x xs ih =>
    intro k
    rw [mutateRow, if_neg (not_lt.mpr (hr k)), ih (k + 1)]
    simp
    omega

/-- With rate 0, a matrix is never mutated. -/
theorem mutateMatrix_rate_zero (rng : ℕ → ℚ) (hr : ∀ m, 0 ≤ rng m)
    (w : List (List ℚ)) : ∀ k : ℕ, ∃ k1, mutateMatrix 0 rng w k = (w, k1) := by
  induction w with
  | nil => intro k; exact ⟨k, by simp [mutateMatrix]⟩
  | cons r rs ih =>
    intro k
    obtain ⟨k1, h1⟩ := ih (k + r.length)
    refine ⟨k1, ?_⟩
    rw [mutateMatrix, mutateRow_rate_zero rng hr]
    dsimp only
    rw [h1]

/-- With rate 0, a layer is returned unchanged. -/
theorem mutateLayer_rate_zero (rng : ℕ → ℚ) (hr : ∀ m, 0 ≤ rng m)
    (l : NeuralNetworkLayer) (k : ℕ) : ∃ k1, mutateLayer 0 rng l k = (l, k1) := by
  obtain ⟨ow, ob⟩ := l
  rcases ow with _ | w <;> rcases ob with _ | bs
  · exact ⟨k, by simp [mutateLayer]⟩
  · exact ⟨k, by simp [mutateLayer]⟩
  · obtain ⟨k1, h1⟩ := mutateMatrix_rate_zero rng hr w k
    exact ⟨k1, by simp [mutateLayer, h1]⟩
  · obtain ⟨k1, h1⟩ := mutateMatrix_rate_zero rng hr w k
    refine ⟨k1 + bs.length, ?_⟩
    simp [mutateLayer, h1, mutateRow_rate_zero rng hr]

/-- With rate 0, the layer list is returned unchanged. -/
theorem mutateLayers_rate_zero (rng : ℕ → ℚ) (hr : ∀ m, 0 ≤ rng m)
    (ls : List NeuralNetworkLayer) : ∀ k : ℕ, ∃ k1, mutateLayers 0 rng ls k = (ls, k1) := by
  induction ls with
  | nil => intro k; exact ⟨k, by simp [mutateLayers]⟩
  | cons l ls1 ih =>
    intro k
    obtain ⟨k1, h1⟩ := mutateLayer_rate_zero rng hr l k
    obtain ⟨k2, h2⟩ := ih k1
    refine ⟨k2, ?_⟩
    rw [mutateLayers, h1]
    dsimp only
    rw [h2]

/-- With rate 1, every element of a row is perturbed by `d * 2 - 1` for
an independent in-range draw `d`. -/
theorem mutateRow_rate_one (rng : ℕ → ℚ) (hr : ∀ m, 0 ≤ rng m ∧ rng m < 1)
    (r : List ℚ) : ∀ k : ℕ, rowPerturbed r (mutateRow 1 rng r k).1 := by
  induction r with
  | nil => intro k; exact ⟨by simp [mutateRow], by simp⟩
  | cons x xs ih =>
    intro k
    rw [mutateRow, if_pos (hr k).2]
    rcases hrest : mutateRow 1 rng xs (k + 2) with ⟨rest, k1⟩
    have hx := ih (k + 2)
    rw [hrest] at hx
    refine ⟨by simpa using hx.1, ?_⟩
    intro t ht
    rcases t with _ | t
    · exact ⟨rng (k + 1), (hr (k + 1)).1, (hr (k + 1)).2, by simp⟩
    · simpa using hx.2 t (by simpa using ht)

/-- With rate 1, every element of a matrix is perturbed. -/
theorem mutateMatrix_rate_one (rng : ℕ → ℚ) (hr : ∀ m, 0 ≤ rng m ∧ rng m < 1)
    (w : List (List ℚ)) : ∀ k : ℕ, matrixPerturbed w (mutateMatrix 1 rng w k).1 := by
  induction w with
  | nil => intro k; exact ⟨by simp [mutateMatrix], by simp⟩
  | cons r rs ih =>
    intro k
    rcases hrow : mutateRow 1 rng r k with ⟨r1, k1⟩
    rcases hrest : mutateMatrix 1 rng rs k1 with ⟨rest, k2⟩
    rw [mutateMatrix, hrow]
    dsimp only
    rw [hrest]
    have h1 := mutateRow_rate_one rng hr r k
    rw [hrow] at h1
    have h2 := ih k1
    rw [hrest] at h2
    refine ⟨by simpa using h2.1, ?_⟩
    intro j hj
    rcases j with _ | j
    · simpa using h1
    · simpa using h2.2 j (by simpa using hj)

/-- With rate 1, a layer without weights passes through unchanged and a
weight-carrying layer has every weight and present bias perturbed. -/
theorem mutateLayer_rate_one (rng : ℕ → ℚ) (hr : ∀ m, 0 ≤ rng m ∧ rng m < 1)
    (l : NeuralNetworkLayer) (k : ℕ) :
    mutatedAtRateOne l (mutateLayer 1 rng l k).1 := by
  obtain ⟨ow, ob⟩ := l
  rcases ow with _ | w <;> rcases ob with _ | bs
  · simp [mutateLayer, mutatedAtRateOne]
  · simp [mutateLayer, mutatedAtRateOne]
  · rcases hw : mutateMatrix 1 rng w k with ⟨w1, k1⟩
    have h1 := mutateMatrix_rate_one rng hr w k
    rw [hw] at h1
    refine ⟨w1, by simp [mutateLayer, hw], h1, Or.inl ⟨rfl, by simp [mutateLayer, hw]⟩⟩
  · rcases hw : mutateMatrix 1 rng w k with ⟨w1, k1⟩
    rcases hb : mutateRow 1 rng bs k1 with ⟨bs1, k2⟩
    have h1 := mutateMatrix_rate_one rng hr w k
    rw [hw] at h1
    have h2 := mutateRow_rate_one rng hr bs k1
    rw [hb] at h2
    exact ⟨w1, by simp [mutateLayer, hw, hb], h1,
      Or.inr ⟨bs, bs1, rfl, by simp [mutateLayer, hw, hb], h2⟩⟩

/-- With rate 1, the layer list is elementwise in the
`mutatedAtRateOne` relation with its image. -/
theorem mutateLayers_rate_one (rng : ℕ → ℚ) (hr : ∀ m, 0 ≤ rng m ∧ rng m < 1)
    (ls : List NeuralNetworkLayer) : ∀ k : ℕ,
    List.Forall₂ mutatedAtRateOne ls (mutateLayers 1 rng ls k).1 := by
  induction ls with
  | nil => intro k; simp [mutateLayers]
  | cons l ls1 ih =>
    intro k
    rcases hl : mutateLayer 1 rng l k with ⟨l1, k1⟩
    rcases hrest : mutateLayers 1 rng ls1 k1 with ⟨rest, k2⟩
    rw [mutateLayers, hl]
    dsimp only
    rw [hrest]
    have h1 := mutateLayer_rate_one rng hr l k
    rw [hl] at h1
    have h2 := ih k1
    rw [hrest] at h2
    exact List.Forall₂.cons h1 h2

/-- At any rate, a layer without weights passes through `mutate`
unchanged (the loop `continue`s). -/
theorem mutateLayers_skip (rate : ℚ) (rng : ℕ → ℚ)
    (ls : List NeuralNetworkLayer) : ∀ k : ℕ,
    List.Forall₂ (fun l l1 => l.weights = none → l1 = l) ls
      (mutateLayers rate rng ls k).1 := by
  induction ls with
  | nil => intro k; simp [mutateLayers]
  | cons l ls1 ih =>
    intro k
    rcases hl : mutateLayer rate rng l k with ⟨l1, k1⟩
    rcases hrest : mutateLayers rate rng ls1 k1 with ⟨rest, k2⟩
    rw [mutateLayers, hl]
    dsimp only
    rw [hrest]
    refine List.Forall₂.cons ?_ (by simpa [hrest] using ih k1)
    intro hnone
    rw [mutateLayer, hnone] at hl
    simp only [Prod.mk.injEq] at hl
    exact hl.1.symm

/-- C7 (amended): `mutate` with rate 0 leaves every weight and bias
unchanged; `mutate` with rate 1 applies a perturbation `d * 2 - 1`,
`d ∈ [0, 1)` an independent draw, to every weight and bias of every
weight-carrying layer (the decision draw is always below 1), so an
element changes exactly when its perturbation draw differs from `1/2`;
layers without weights are skipped unchanged rather than treated as an
error. -/
theorem C7_mutate_rate_semantics :
    (∀ (net : NeuralNetworkJSON) (rng : ℕ → ℚ), (∀ m, 0 ≤ rng m) → ∀ k : ℕ,
      (GeneticAlgorithm.mutate net 0 rng k).1 = net) ∧
    (∀ (net : NeuralNetworkJSON) (rng : ℕ → ℚ), (∀ m, 0 ≤ rng m ∧ rng m < 1) →
      ∀ k : ℕ, List.Forall₂ mutatedAtRateOne net.layers
        (GeneticAlgorithm.mutate net 1 rng k).1.layers) ∧
    (∀ (net : NeuralNetworkJSON) (rate : ℚ) (rng : ℕ → ℚ) (k : ℕ),
      List.Forall₂ (fun l l1 => l.weights = none → l1 = l) net.layers
        (GeneticAlgorithm.mutate net rate rng k).1.layers) := by
  refine ⟨?_, ?_, ?_⟩
  · intro net rng hr k
    obtain ⟨k1, h1⟩ := mutateLayers_rate_zero rng hr net.layers k
    rw [GeneticAlgorithm.mutate, h1]
  · intro net rng hr k
    have h := mutateLayers_rate_one rng hr net.layers k
    rw [GeneticAlgorithm.mutate]
    rcases hls : mutateLayers 1 rng net.layers k with ⟨ls, k1⟩
    rw [hls] at h
    simpa using h
  · intro net rate rng k
    have h := mutateLayers_skip rate rng net.layers k
    rw [GeneticAlgorithm.mutate]
    rcases hls : mutateLayers rate rng net.layers k with ⟨ls, k1⟩
    rw [hls] at h
    simpa using h

/-- Witness for C7 at the one-layer network `netW` with the constant
one-half draw stream. -/
theorem C7_witness :
    (GeneticAlgorithm.mutate netW 0 rngHalf 5).1 = netW ∧
    List.Forall₂ mutatedAtRateOne netW.layers
      (GeneticAlgorithm.mutate netW 1 rngHalf 0).1.layers :=
  ⟨C7_mutate_rate_semantics.1 netW rngHalf (fun m => by norm_num [rngHalf]) 5,
   C7_mutate_rate_semantics.2.1 netW rngHalf
     (fun m => by norm_num [rngHalf]) 0⟩

/-- Counterexample for C7 as stated: with rate 1 and every draw equal
to `1/2`, the perturbation `1/2 * 2 - 1` is zero, so `mutate` leaves
every weight and bias of `netW` unchanged — rate-1 mutation does not
always change the values. -/
theorem C7_counterexample : (GeneticAlgorithm.mutate netW 1 rngHalf 0).1 = netW := by
  norm_num [GeneticAlgorithm.mutate, mutateLayers, mutateLayer, mutateMatrix,
    mutateRow, rngHalf, netW]

/-- C9: importing a brain document without `network.layers` is rejected
with a user-visible message and leaves every other part of the state
unchanged (controller, stored brain, stored generation counter); a
document carrying `network.layers` is accepted: boid 0's network is
overwritten with it, it is persisted, and a success message is shown. -/
theorem C9_import_rejects_missing_layers (doc : BrainDoc) (st : SimStore) :
    (doc.network.bind ImportedNetwork.layers = none →
      importBrain doc st = { st with status := "Invalid brain file" }) ∧
    (∀ (nd : ImportedNetwork) (layers : List NeuralNetworkLayer)
        (ga : GeneticAlgorithm) (bhead : Boid) (brest : List Boid),
      doc.network = some nd → nd.layers = some layers →
      st.ga = some ga → ga.boids = bhead :: brest →
      ∃ ga1, (importBrain doc st).ga = some ga1 ∧
        ga1.boids.head? = some { bhead with network := ⟨layers⟩ } ∧
        (importBrain doc st).storedBrain = some ⟨layers⟩ ∧
        (importBrain doc st).status = "Brain imported") := by
  constructor
  · intro h
    rcases hn : doc.network with _ | nd
    · rw [importBrain, hn]
    · rcases hl : nd.layers with _ | layers
      · rw [importBrain, hn]
        dsimp only
        rw [hl]
      · rw [hn] at h
        simp [hl] at h
  · intro nd layers ga bhead brest hn hl hga hboids
    rw [importBrain, hn]
    dsimp only
    rw [hl]
    dsimp only
    rw [hga]
    dsimp only
    rw [hboids]
    dsimp only
    rcases hg : doc.generation with _ | g
    · exact ⟨_, rfl, by simp, rfl, rfl⟩
    · dsimp only
      by_cases hz : g = 0
      · rw [if_neg (by simp [hz])]
        exact ⟨_, rfl, by simp, rfl, rfl⟩
      · rw [if_pos hz]
        exact ⟨_, rfl, by simp, rfl, rfl⟩

/-- Witness for C9: the concrete document without `network.layers` is
rejected with the message and no state change; the concrete document
with `network.layers` is accepted into boid 0 and persisted. -/
theorem C9_witness :
    importBrain docBad store0 = { store0 with status := "Invalid brain file" } ∧
    ∃ ga1, (importBrain docGood store0).ga = some ga1 ∧
      ga1.boids.head? = some { bDead with network := ⟨netW.layers⟩ } ∧
      (importBrain docGood store0).storedBrain = some ⟨netW.layers⟩ ∧
      (importBrain docGood store0).status = "Brain imported" :=
  ⟨(C9_import_rejects_missing_layers docBad store0).1 (by simp [docBad]),
   (C9_import_rejects_missing_layers docGood store0).2 ⟨some netW.layers⟩
     netW.layers gaW bDead [] (by simp [docGood]) rfl (by simp [store0])
     (by simp [gaW])⟩

/-- A draw in `[0, 1)` scaled by the population size and floored is an
in-range index. -/
theorem floorIdx_lt (r : ℚ) (n : ℕ) (hn : 0 < n) (h0 : 0 ≤ r) (h1 : r < 1) :
    (⌊r * (n : ℚ)⌋).toNat < n := by
  have h2 : ⌊r * (n : ℚ)⌋ < (n : ℤ) := by
    rw [Int.floor_lt]
    push_cast
    calc r * (n : ℚ) < 1 * (n : ℚ) := by
          exact mul_lt_mul_of_pos_right h1 (by exact_mod_cast hn)
      _ = (n : ℚ) := one_mul _
  have h3 : (0 : ℤ) ≤ ⌊r * (n : ℚ)⌋ :=
    Int.floor_nonneg.mpr (mul_nonneg h0 (by positivity))
  omega

/-- Peeling one slot off the tournament sample list. -/
theorem tournamentSamples_succ (boids : List Boid) (rng : ℕ → ℚ) (k size : ℕ) :
    tournamentSamples boids rng k (size + 1) =
      boids.getD ((⌊rng k * (boids.length : ℚ)⌋).toNat) defaultBoid ::
        tournamentSamples boids rng (k + 1) size := by
  unfold tournamentSamples
  rw [List.range_succ_eq_map, List.map_cons, List.map_map]
  simp only [Nat.add_zero]
  congr 1
  apply List.map_congr_left
  intro i _
  have : k + (i + 1) = k + 1 + i := by omega
  simp [Function.comp, this]

/-- The tournament fold started from a first candidate returns the
first sampled boid of strictly greatest fitness: it is one of the
candidates, every candidate's fitness is at most its fitness, and it is
the first candidate whose fitness reaches the maximum. -/
theorem tourFold_spec (S : List Boid) : ∀ b : Boid,
    ∃ r, tourFold (some b) S = some r ∧ (r = b ∨ r ∈ S) ∧
      b.fitness ≤ r.fitness ∧ (∀ c ∈ S, c.fitness ≤ r.fitness) ∧
      (b :: S).find? (fun c => decide (r.fitness ≤ c.fitness)) = some r := by
  induction S with
  | nil =>
    intro b
    exact ⟨b, rfl, Or.inl rfl, le_refl _, by simp, by simp⟩
  | cons c S ih =>
    intro b
    have hstep : tourFold (some b) (c :: S) =
        tourFold (if b.fitness < c.fitness then some c else some b) S := by
      rw [tourFold, List.foldl_cons]
      rfl
    by_cases hbc : b.fitness < c.fitness
    · obtain ⟨r, h1, h2, h3, h4, h5⟩ := ih c
      have hbr : b.fitness ≤ r.fitness := le_of_lt (lt_of_lt_of_le hbc h3)
      refine ⟨r, ?_, ?_, hbr, ?_, ?_⟩
      · rw [hstep, if_pos hbc]; exact h1
      · rcases h2 with h | h
        · exact Or.inr (h ▸ List.mem_cons_self c S)
        · exact Or.inr (List.mem_cons_of_mem c h)
      · intro x hx
        rcases List.mem_cons.mp hx with rfl | hx
        · exact h3
        · exact h4 x hx
      · rw [List.find?_cons]
        have hpb : (decide (r.fitness ≤ b.fitness)) = false :=
          decide_eq_false (not_le.mpr (lt_of_lt_of_le hbc h3))
        rw [hpb]
        exact h5
    · obtain ⟨r, h1, h2, h3, h4, h5⟩ := ih b
      have hcb : c.fitness ≤ b.fitness := not_lt.mp hbc
      refine ⟨r, ?_, ?_, h3, ?_, ?_⟩
      · rw [hstep, if_neg hbc]; exact h1
      · rcases h2 with h | h
        · exact Or.inl h
        · exact Or.inr (List.mem_cons_of_mem c h)
      · intro x hx
        rcases List.mem_cons.mp hx with rfl | hx
        · exact le_trans hcb h3
        · exact h4 x hx
      · rw [List.find?_cons] at h5 ⊢
        rcases hpb : (decide (r.fitness ≤ b.fitness)) with _ | _
        · rw [hpb] at h5
          have hrb : ¬r.fitness ≤ b.fitness := of_decide_eq_false hpb
          have hpc : (decide (r.fitness ≤ c.fitness)) = false :=
            decide_eq_false fun hrc => hrb (le_trans hrc hcb)
          rw [List.find?_cons, hpc]
          exact h5
        · rw [hpb] at h5
          exact h5

/-- The tournament loop equals the tournament fold over the sample
list when every draw is in `[0, 1)` and the population is non-empty. -/
theorem selectParentGo_spec (boids : List Boid) (rng : ℕ → ℚ)
    (hn : boids ≠ []) (hr : ∀ m, 0 ≤ rng m ∧ rng m < 1) :
    ∀ (size k : ℕ) (best : Option Boid),
      selectParentGo boids rng size k best =
        some (tourFold best (tournamentSamples boids rng k size)) := by
  intro size
  induction size with
  | zero =>
    intro k best
    simp [selectParentGo, tournamentSamples, tourFold]
  | succ m ih =>
    intro k best
    have hlen : 0 < boids.length := List.length_pos.mpr hn
    have hidx := floorIdx_lt (rng k) boids.length hlen (hr k).1 (hr k).2
    rw [selectParentGo, List.get?_eq_get hidx]
    dsimp only
    rw [ih (k + 1), tournamentSamples_succ]
    have hgetD : boids.getD ((⌊rng k * (boids.length : ℚ)⌋).toNat) defaultBoid =
        boids.get ⟨(⌊rng k * (boids.length : ℚ)⌋).toNat, hidx⟩ := by
      rw [List.getD_eq_get?, List.get?_eq_get hidx]
      rfl
    rw [hgetD]
    rcases best with _ | b
    · rfl
    · simp only [tourFold, List.foldl_cons]

/-- C8: `selectParent` samples exactly `tournamentSize` boids from the
current population uniformly with replacement (index
`floor(draw * length)` per slot) and returns the sampled boid of
strictly greatest fitness, keeping the first found on ties; with
`tournamentSize = 1` it returns exactly the single uniformly sampled
boid, so it is uniform random selection over the population. -/
theorem C8_selectParent_tournament_spec (ga : GeneticAlgorithm) (rng : ℕ → ℚ)
    (k : ℕ) (hn : ga.boids ≠ []) (hk : 0 < ga.tournamentSize)
    (hr : ∀ m, 0 ≤ rng m ∧ rng m < 1) :
    ∃ r, ga.selectParent rng k = some (r, k + ga.tournamentSize) ∧
      r ∈ tournamentSamples ga.boids rng k ga.tournamentSize ∧
      (∀ c ∈ tournamentSamples ga.boids rng k ga.tournamentSize,
        c.fitness ≤ r.fitness) ∧
      (tournamentSamples ga.boids rng k ga.tournamentSize).find?
        (fun c => decide (r.fitness ≤ c.fitness)) = some r ∧
      (ga.tournamentSize = 1 → ga.selectParent rng k =
        (ga.boids.get? ((⌊rng k * (ga.boids.length : ℚ)⌋).toNat)).map
          fun b => (b, k + 1)) := by
  obtain ⟨m, hm⟩ : ∃ m, ga.tournamentSize = m + 1 := ⟨ga.tournamentSize - 1, by omega⟩
  have hgo := selectParentGo_spec ga.boids rng hn hr (m + 1) k none
  rw [tournamentSamples_succ] at hgo
  have hlen : 0 < ga.boids.length := List.length_pos.mpr hn
  have hidx := floorIdx_lt (rng k) ga.boids.length hlen (hr k).1 (hr k).2
  have hgetD : ga.boids.getD ((⌊rng k * (ga.boids.length : ℚ)⌋).toNat) defaultBoid =
      ga.boids.get ⟨(⌊rng k * (ga.boids.length : ℚ)⌋).toNat, hidx⟩ := by
    rw [List.getD_eq_get?, List.get?_eq_get hidx]
    rfl
  have hfold : tourFold (none : Option Boid)
      (ga.boids.getD ((⌊rng k * (ga.boids.length : ℚ)⌋).toNat) defaultBoid ::
        tournamentSamples ga.boids rng (k + 1) m) =
      tourFold (some (ga.boids.getD ((⌊rng k * (ga.boids.length : ℚ)⌋).toNat)
        defaultBoid)) (tournamentSamples ga.boids rng (k + 1) m) := by
    rw [tourFold, tourFold, List.foldl_cons]
  obtain ⟨r, h1, h2, h3, h4, h5⟩ :=
    tourFold_spec (tournamentSamples ga.boids rng (k + 1) m)
      (ga.boids.getD ((⌊rng k * (ga.boids.length : ℚ)⌋).toNat) defaultBoid)
  have hsel : ga.selectParent rng k = some (r, k + ga.tournamentSize) := by
    rw [GeneticAlgorithm.selectParent, hm, hgo, hfold, h1]
  refine ⟨r, hsel, ?_, ?_, ?_, ?_⟩
  · rw [hm, tournamentSamples_succ]
    rcases h2 with rfl | h
    · exact List.mem_cons_self _ _
    · exact List.mem_cons_of_mem _ h
  · rw [hm, tournamentSamples_succ]
    intro x hx
    rcases List.mem_cons.mp hx with rfl | hx
    · exact h3
    · exact h4 x hx
  · rw [hm, tournamentSamples_succ]
    exact h5
  · intro h1size
    have hm0 : m = 0 := by omega
    subst hm0
    have hrc : r = ga.boids.getD ((⌊rng k * (ga.boids.length : ℚ)⌋).toNat)
        defaultBoid := by
      rcases h2 with rfl | h
      · rfl
      · simp [tournamentSamples] at h
    rw [hsel, List.get?_eq_get hidx, h1size, hrc, hgetD]
    rfl

/-- Witness for C8 at the concrete two-boid controller `ga8` with the
constant one-half draw stream. -/
theorem C8_witness :
    ∃ r, ga8.selectParent rngHalf 0 = some (r, 0 + ga8.tournamentSize) ∧
      r ∈ tournamentSamples ga8.boids rngHalf 0 ga8.tournamentSize ∧
      (∀ c ∈ tournamentSamples ga8.boids rngHalf 0 ga8.tournamentSize,
        c.fitness ≤ r.fitness) ∧
      (tournamentSamples ga8.boids rngHalf 0 ga8.tournamentSize).find?
        (fun c => decide (r.fitness ≤ c.fitness)) = some r ∧
      (ga8.tournamentSize = 1 → ga8.selectParent rngHalf 0 =
        (ga8.boids.get? ((⌊rngHalf 0 * (ga8.boids.length : ℚ)⌋).toNat)).map
          fun b => (b, 0 + 1)) :=
  C8_selectParent_tournament_spec ga8 rngHalf 0 (by simp [ga8])
    (by simp [ga8]) (fun m => by norm_num [rngHalf])

/-- `nextGeneration` advances the generation counter by exactly one and
touches neither the timer nor the configured population size. -/
theorem nextGeneration_shape (M : JsMath) (x y angle : ℚ)
    (ga : GeneticAlgorithm) (rng : ℕ → ℚ) (k : ℕ) (ga1 : GeneticAlgorithm)
    (k1 : ℕ)
    (h : GeneticAlgorithm.nextGeneration M x y angle ga rng k = some (ga1, k1)) :
    ga1.generation = ga.generation + 1 ∧ ga1.timer = ga.timer ∧
    ga1.populationSize = ga.populationSize := by
  rw [GeneticAlgorithm.nextGeneration] at h
  split at h
  · exact absurd h (by simp)
  · dsimp only at h
    split at h
    · exact absurd h (by simp)
    · obtain ⟨h1, -⟩ := Prod.mk.injEq .. |>.mp (Option.some.inj h)
      rw [← h1]
      exact ⟨rfl, rfl, rfl⟩

/-- C2 (amended): a generation ends — the population is reproduced and
the timer reset — if and only if, at the end of the tick, every agent
is dead or the advanced timer exceeds `maxLifespan`.  The two
stagnation triggers the specification lists (no improvement within the
final 500 ticks, and best-fitness died out for 500 consecutive ticks)
are not implemented. -/
theorem C2_generation_end_condition (M : JsMath)
    (netRun : NeuralNetworkJSON → List ℚ → List ℚ) (tr : Track)
    (ga : GeneticAlgorithm) (rng : ℕ → ℚ) (k : ℕ) (bs : List Boid)
    (ga1 : GeneticAlgorithm) (k1 : ℕ)
    (hbs : ga.boids.mapM (Boid.update M netRun tr) = some bs)
    (hup : GeneticAlgorithm.update M netRun tr ga rng k = some (ga1, k1)) :
    (ga1.generation = ga.generation + 1 ∧ ga1.timer = 0) ↔
      (allDeadB bs = true ∨ ga.maxLifespan < ga.timer + 1) := by
  rw [GeneticAlgorithm.update] at hup
  rw [hbs] at hup
  dsimp only at hup
  by_cases hcond : (allDeadB bs || decide (ga.maxLifespan < ga.timer + 1)) = true
  · rw [if_pos hcond] at hup
    rcases hng : GeneticAlgorithm.nextGeneration M tr.startPoint.x tr.startPoint.y
        tr.startAngle { ga with boids := bs, timer := ga.timer + 1 } rng k with
      _ | ⟨ga2, k2⟩
    · rw [hng] at hup
      exact absurd hup (by simp)
    · rw [hng] at hup
      dsimp only at hup
      obtain ⟨h1, -⟩ := Prod.mk.injEq .. |>.mp (Option.some.inj hup)
      have hgen := (nextGeneration_shape M tr.startPoint.x tr.startPoint.y
        tr.startAngle _ rng k ga2 k2 hng).1
      constructor
      · intro _
        simpa [Bool.or_eq_true, decide_eq_true_eq] using hcond
      · intro _
        rw [← h1]
        exact ⟨hgen, rfl⟩
  · rw [if_neg hcond] at hup
    obtain ⟨h1, -⟩ := Prod.mk.injEq .. |>.mp (Option.some.inj hup)
    constructor
    · intro hend
      exfalso
      rw [← h1] at hend
      have : ga.generation = ga.generation + 1 := hend.1
      omega
    · intro hor
      exfalso
      apply hcond
      rcases hor with h | h
      · simp [h]
      · simp [h]

/-- Witness for C2: the one-boid controller `gaW` with its only agent
dead reproduces on the next tick with the timer reset. -/
theorem C2_witness : gaWPost.generation = gaW.generation + 1 ∧ gaWPost.timer = 0 :=
  (C2_generation_end_condition M0 netRun0 track0 gaW rngZero 0 [bDead] gaWPost 0
    (by simp [gaW, bDead, mkBoid, Boid.update, List.mapM, List.mapM.loop])
    (by norm_num [GeneticAlgorithm.update, GeneticAlgorithm.nextGeneration, gaW,
      gaWPost, bDead, mkBoid, Boid.update, allDeadB, sortByFitnessDesc,
      insertByFitness, fillChildren, track0, netW, M0, List.mapM, List.mapM.loop,
      Vec.fromAngle])).mpr
    (Or.inl (by simp [allDeadB, bDead, mkBoid]))

/-- A fold of `max` starting from 0 is bounded by any nonnegative bound
of the list elements. -/
theorem foldrMax_le (l : List ℚ) (B : ℚ) (h0 : 0 ≤ B) (h : ∀ x ∈ l, x ≤ B) :
    l.foldr max 0 ≤ B := by
  induction l with
  | nil => simpa using h0
  | cons x xs ih =>
    simp only [List.foldr_cons]
    exact max_le (h x (by simp)) (ih fun y hy => h y (List.mem_cons_of_mem x hy))

/-- Flattening a history of single-agent observations yields the
per-tick fitness list. -/
theorem flatMapObs (l : List ℕ) (g : ℕ → ℚ) :
    (((l.map fun t => [(false, g t)]) : List TickObs).flatMap fun s =>
      s.map Prod.snd) = l.map g := by
  induction l with
  | nil => rfl
  | cons a l ih => simp only [List.map_cons, List.flatMap_cons, ih, List.map_nil]; rfl

/-- The running best of the stagnation history is its first value. -/
theorem histC_best_le : bestFitness histC ≤ 11000 := by
  rw [bestFitness, histC, flatMapObs]
  apply foldrMax_le _ _ (by norm_num)
  intro x hx
  obtain ⟨t, -, rfl⟩ := List.mem_map.mp hx
  have h1 : (0 : ℚ) ≤ (t : ℚ) := Nat.cast_nonneg t
  have h2 : fitHist (t + 1) = 1000 + 10000 / ((t : ℚ) + 1) := by
    rw [fitHist]
    push_cast
    ring_nf
  rw [h2]
  have h3 : 10000 / ((t : ℚ) + 1) ≤ 10000 :=
    div_le_self (by norm_num) (by linarith)
  linarith

/-- The first 1-tick prefix of the stagnation history scores 11000. -/
theorem histC_take_best : bestFitness (histC.take (histC.length - 500)) = 11000 := by
  have hlen : histC.length = 501 := by simp [histC]
  rw [hlen]
  norm_num [histC, bestFitness]
  rw [show (501 : ℕ) = 500 + 1 from rfl, List.range_succ_eq_map]
  norm_num [fitHist]

/-- The last entry of the stagnation history. -/
theorem histC_last : histC.getLast?.getD [] = [(false, fitHist 501)] := by
  rw [histC, List.getLast?_eq_getElem?]
  norm_num [fitHist]

/-- Counterexample for C2 as stated: at the end of tick 501 with
`maxLifespan = 600`, the history `histC` satisfies the claimed
late-stagnation trigger (within the final 500 ticks, no fitness
improvement during the last 500 ticks, one agent alive), yet the code's
tick leaves the generation counter unchanged — the generation does not
end, refuting the "if" direction of the claimed equivalence. -/
theorem C2_counterexample :
    specGenerationEnds histC 600 ∧
    GeneticAlgorithm.update M0 netRun0 track0 gaC rngZero 0 = some (gaCPost, 0) ∧
    observeBoids gaCPost.boids = histC.getLast?.getD [] ∧
    gaCPost.timer = (histC.length : ℤ) ∧
    gaCPost.generation = gaC.generation ∧ gaCPost.timer ≠ 0 := by
  refine ⟨?_, ?_, ?_, ?_, rfl, by norm_num [gaCPost, gaC]⟩
  · refine Or.inr (Or.inr (Or.inl ⟨?_, ?_⟩))
    · simp [histC]
    · rw [histC_take_best]
      exact histC_best_le
  · norm_num [GeneticAlgorithm.update, gaC, gaCPost, bC, bCPost, mkBoid, Boid.update,
      Boid.updateSensors, Boid.checkCollisions, sensorRayScan, sensorAngles,
      sensorLength, Vec.fromAngle, Vec.add, Vec.mult, Vec.limit, Vec.mag,
      Vec.getNormalized, Vec.dist, M0, netRun0, netW, track0, Boid.checkCheckpoints,
      getIntersection, calculateHiddenActivations, calculateHiddenActivationsGo,
      fitnessFormula, boidRadius, allDeadB, fitHist, List.mapM, List.mapM.loop]
  · rw [histC_last]
    simp [observeBoids, gaCPost, bCPost, bC, mkBoid]
  · simp [gaCPost, gaC, histC]

/-- Updating a dead boid is a no-op. -/
theorem update_dead (M : JsMath) (netRun : NeuralNetworkJSON → List ℚ → List ℚ)
    (tr : Track) (b : Boid) (hd : b.isDead = true) :
    Boid.update M netRun tr b = some b := by
  rw [Boid.update, if_pos hd]

/-- Updating an all-dead population returns it unchanged. -/
theorem mapM_update_dead (M : JsMath) (netRun : NeuralNetworkJSON → List ℚ → List ℚ)
    (tr : Track) (bs : List Boid) (h : ∀ b ∈ bs, b.isDead = true) :
    bs.mapM (Boid.update M netRun tr) = some bs := by
  induction bs with
  | nil => rfl
  | cons b bs ih =>
    rw [List.mapM_cons, update_dead M netRun tr b (h b (by simp)),
      ih fun x hx => h x (List.mem_cons_of_mem b hx)]
    rfl

/-- Stable descending insertion adds one element. -/
theorem insertByFitness_length (b : Boid) (l : List Boid) :
    (insertByFitness b l).length = l.length + 1 := by
  induction l with
  | nil => rfl
  | cons c cs ih =>
    rw [insertByFitness]
    split
    · simp
    · simp [ih]

/-- The fitness sort preserves the population count. -/
theorem sortByFitnessDesc_length (l : List Boid) :
    (sortByFitnessDesc l).length = l.length := by
  induction l with
  | nil => rfl
  | cons b bs ih =>
    rw [sortByFitnessDesc, insertByFitness_length, ih]
    rfl

/-- Membership in a stable descending insertion. -/
theorem mem_insertByFitness {x b : Boid} {l : List Boid} :
    x ∈ insertByFitness b l ↔ x = b ∨ x ∈ l := by
  induction l with
  | nil => simp [insertByFitness]
  | cons c cs ih =>
    rw [insertByFitness]
    split
    · simp
    · rw [List.mem_cons, ih, List.mem_cons]
      tauto

/-- The fitness sort preserves membership. -/
theorem mem_sortByFitnessDesc {x : Boid} {l : List Boid} :
    x ∈ sortByFitnessDesc l ↔ x ∈ l := by
  induction l with
  | nil => simp [sortByFitnessDesc]
  | cons b bs ih =>
    rw [sortByFitnessDesc, mem_insertByFitness, ih, List.mem_cons]

/-- Every tournament sample is a member of the population. -/
theorem tournamentSamples_subset (boids : List Boid) (rng : ℕ → ℚ) (k size : ℕ)
    (hn : boids ≠ []) (hr : ∀ m, 0 ≤ rng m ∧ rng m < 1) :
    ∀ x ∈ tournamentSamples boids rng k size, x ∈ boids := by
  intro x hx
  obtain ⟨i, -, rfl⟩ := List.mem_map.mp hx
  have hidx := floorIdx_lt (rng (k + i)) boids.length (List.length_pos.mpr hn)
    (hr (k + i)).1 (hr (k + i)).2
  rw [List.getD_eq_get?, List.get?_eq_get hidx]
  simpa using List.get_mem boids ⟨(⌊rng (k + i) * (boids.length : ℚ)⌋).toNat, hidx⟩

/-- `selectParent` succeeds on a non-empty population with in-range
draws and a positive tournament size, returning a member of the
population and advancing the cursor by the tournament size. -/
theorem selectParent_total (ga : GeneticAlgorithm) (rng : ℕ → ℚ) (k : ℕ)
    (hn : ga.boids ≠ []) (hts : 0 < ga.tournamentSize)
    (hr : ∀ m, 0 ≤ rng m ∧ rng m < 1) :
    ∃ r, ga.selectParent rng k = some (r, k + ga.tournamentSize) ∧ r ∈ ga.boids := by
  obtain ⟨m, hm⟩ : ∃ m, ga.tournamentSize = m + 1 := ⟨ga.tournamentSize - 1, by omega⟩
  have hgo := selectParentGo_spec ga.boids rng hn hr (m + 1) k none
  rw [tournamentSamples_succ] at hgo
  have hfold : tourFold (none : Option Boid)
      (ga.boids.getD ((⌊rng k * (ga.boids.length : ℚ)⌋).toNat) defaultBoid ::
        tournamentSamples ga.boids rng (k + 1) m) =
      tourFold (some (ga.boids.getD ((⌊rng k * (ga.boids.length : ℚ)⌋).toNat)
        defaultBoid)) (tournamentSamples ga.boids rng (k + 1) m) := by
    rw [tourFold, tourFold, List.foldl_cons]
  obtain ⟨r, h1, h2, -, -, -⟩ :=
    tourFold_spec (tournamentSamples ga.boids rng (k + 1) m)
      (ga.boids.getD ((⌊rng k * (ga.boids.length : ℚ)⌋).toNat) defaultBoid)
  refine ⟨r, ?_, ?_⟩
  · rw [GeneticAlgorithm.selectParent, hm, hgo, hfold, h1]
  · have hsub := tournamentSamples_subset ga.boids rng k (m + 1) hn hr
    rcases h2 with rfl | h
    · exact hsub _ (by rw [tournamentSamples_succ]; exact List.mem_cons_self _ _)
    · exact hsub _ (by rw [tournamentSamples_succ]; exact List.mem_cons_of_mem _ h)

/-- Blending succeeds whenever parent 2's row covers parent 1's row. -/
theorem blendRow_total (rng : ℕ → ℚ) : ∀ (r r2 : List ℚ) (k : ℕ),
    r.length ≤ r2.length → ∃ r1 k1, blendRow rng r r2 k = some (r1, k1) := by
  intro r
  induction r with
  | nil => intro r2 k _; exact ⟨[], k, rfl⟩
  | cons x xs ih =>
    intro r2 k hlen
    rcases r2 with _ | ⟨y, ys⟩
    · simp at hlen
    · obtain ⟨r1, k1, h1⟩ := ih ys (k + 1) (by simpa using hlen)
      exact ⟨_, k1, by rw [blendRow, h1]⟩

/-- Blending succeeds whenever the two matrices have the same row
lengths. -/
theorem blendMatrix_total (rng : ℕ → ℚ) : ∀ (w w2 : List (List ℚ)) (k : ℕ),
    w.map List.length = w2.map List.length →
    ∃ w1 k1, blendMatrix rng w w2 k = some (w1, k1) := by
  intro w
  induction w with
  | nil => intro w2 k _; exact ⟨[], k, rfl⟩
  | cons r rs ih =>
    intro w2 k hlen
    rcases w2 with _ | ⟨r2, rs2⟩
    · simp at hlen
    · simp only [List.map_cons, List.cons.injEq] at hlen
      obtain ⟨r1, k1, h1⟩ := blendRow_total rng r r2 k (le_of_eq hlen.1)
      obtain ⟨w1, k2, h2⟩ := ih rs2 k1 hlen.2
      refine ⟨r1 :: w1, k2, ?_⟩
      rw [blendMatrix, h1]
      dsimp only
      rw [h2]

/-- Crossover of one layer succeeds whenever the two layers have the
same shape. -/
theorem crossoverLayer_total (rng : ℕ → ℚ) (l1 l2 : NeuralNetworkLayer) (k : ℕ)
    (hw : l1.weights.map (fun w => w.map List.length) =
      l2.weights.map fun w => w.map List.length)
    (hb : l1.biases.map List.length = l2.biases.map List.length) :
    ∃ l k1, crossoverLayer rng l1 (some l2) k = some (l, k1) := by
  obtain ⟨ow1, ob1⟩ := l1
  obtain ⟨ow2, ob2⟩ := l2
  simp only at hw hb
  rcases ow1 with _ | w1 <;> rcases ow2 with _ | w2 <;>
    rcases ob1 with _ | b1 <;> rcases ob2 with _ | b2 <;> simp at hw hb
  · exact ⟨_, _, rfl⟩
  · obtain ⟨b, k2, h2⟩ := blendRow_total rng b1 b2 k (le_of_eq hb)
    refine ⟨⟨none, some b⟩, k2, ?_⟩
    unfold crossoverLayer
    simp only [Option.some_bind]
    try dsimp only
    rw [h2]
  · obtain ⟨w, k1, h1⟩ := blendMatrix_total rng w1 w2 k hw
    refine ⟨⟨some w, none⟩, k1, ?_⟩
    unfold crossoverLayer
    simp only [Option.some_bind]
    try dsimp only
    rw [h1]
  · obtain ⟨w, k1, h1⟩ := blendMatrix_total rng w1 w2 k hw
    obtain ⟨b, k2, h2⟩ := blendRow_total rng b1 b2 k1 (le_of_eq hb)
    refine ⟨⟨some w, some b⟩, k2, ?_⟩
    unfold crossoverLayer
    simp only [Option.some_bind]
    try dsimp only
    rw [h1]
    try dsimp only
    rw [h2]

/-- Crossover of the layer lists succeeds whenever the two networks
have the same shape. -/
theorem crossoverLayers_total (rng : ℕ → ℚ) :
    ∀ (ls1 ls2 : List NeuralNetworkLayer) (k : ℕ),
    (ls1.map fun l => (l.weights.map (fun w => w.map List.length),
      l.biases.map List.length)) =
      (ls2.map fun l => (l.weights.map (fun w => w.map List.length),
        l.biases.map List.length)) →
    ∃ out k1, crossoverLayers rng ls1 ls2 k = some (out, k1) := by
  intro ls1
  induction ls1 with
  | nil => intro ls2 k _; exact ⟨[], k, rfl⟩
  | cons l1 ls1 ih =>
    intro ls2 k hshape
    rcases ls2 with _ | ⟨l2, ls2⟩
    · simp at hshape
    · simp only [List.map_cons, List.cons.injEq, Prod.mk.injEq] at hshape
      obtain ⟨l, k1, h1⟩ := crossoverLayer_total rng l1 l2 k hshape.1.1 hshape.1.2
      obtain ⟨out, k2, h2⟩ := ih ls2 k1 hshape.2
      refine ⟨l :: out, k2, ?_⟩
      rw [crossoverLayers]
      simp only [List.head?_cons, List.tail_cons, h1]
      rw [h2]

/-- Crossover succeeds on equal-shape parents. -/
theorem crossover_total (rng : ℕ → ℚ) (p1 p2 : NeuralNetworkJSON) (k : ℕ)
    (h : netShape p1 = netShape p2) :
    ∃ out k1, GeneticAlgorithm.crossover p1 p2 rng k = some (out, k1) := by
  obtain ⟨out, k1, h1⟩ := crossoverLayers_total rng p1.layers p2.layers k h
  exact ⟨_, k1, by rw [GeneticAlgorithm.crossover, h1]⟩

/-- A fold whose step appends exactly one boid grows the accumulator by
the list length. -/
theorem foldl_step_length {α : Type} (f : List Boid × ℕ → α → List Boid × ℕ)
    (hf : ∀ acc i, (f acc i).1.length = acc.1.length + 1) :
    ∀ (l : List α) (acc : List Boid × ℕ),
      (l.foldl f acc).1.length = acc.1.length + l.length := by
  intro l
  induction l with
  | nil => intro acc; simp
  | cons a l ih =>
    intro acc
    rw [List.foldl_cons, ih (f acc a), hf acc a]
    simp
    omega

/-- The crossover-children loop succeeds with enough fuel on a
non-empty equal-shape population and fills the population exactly. -/
theorem fillChildren_spec (M : JsMath) (x y angle : ℚ) (ga : GeneticAlgorithm)
    (rng : ℕ → ℚ) (sh : List (Option (List ℕ) × Option ℕ))
    (hn : ga.boids ≠ []) (hts : 0 < ga.tournamentSize)
    (hr : ∀ m, 0 ≤ rng m ∧ rng m < 1)
    (hshape : ∀ b ∈ ga.boids, netShape b.network = sh) :
    ∀ (fuel : ℕ) (acc : List Boid) (k : ℕ),
      ga.populationSize ≤ acc.length + fuel →
      ∃ out k1, fillChildren M x y angle ga rng fuel acc k = some (out, k1) ∧
        out.length = max ga.populationSize acc.length := by
  intro fuel
  induction fuel with
  | zero =>
    intro acc k hle
    exact ⟨acc, k, rfl, (Nat.max_eq_right (by omega)).symm⟩
  | succ n ih =>
    intro acc k hle
    rw [fillChildren]
    by_cases hfull : ga.populationSize ≤ acc.length
    · rw [if_pos hfull]
      exact ⟨acc, k, rfl, (Nat.max_eq_right hfull).symm⟩
    · rw [if_neg hfull]
      obtain ⟨p1, hp1, hp1mem⟩ := selectParent_total ga rng k hn hts hr
      rw [hp1]
      dsimp only
      obtain ⟨p2, hp2, hp2mem⟩ :=
        selectParent_total ga rng (k + ga.tournamentSize) hn hts hr
      rw [hp2]
      dsimp only
      obtain ⟨cnet, k3, hco⟩ := crossover_total rng p1.network p2.network _
        ((hshape p1 hp1mem).trans (hshape p2 hp2mem).symm)
      rw [hco]
      dsimp only
      rcases hmu : GeneticAlgorithm.mutate cnet ga.mutationRate rng k3 with ⟨mnet, k4⟩
      dsimp only
      obtain ⟨out, k5, hfc, hout⟩ := ih (acc ++ [mkBoid M x y angle mnet]) k4
        (by simp; omega)
      refine ⟨out, k5, hfc, ?_⟩
      rw [hout]
      have h1 : (acc ++ [mkBoid M x y angle mnet]).length = acc.length + 1 := by simp
      rw [h1, Nat.max_eq_left (by omega), Nat.max_eq_left (by omega)]

/-- `nextGeneration` succeeds on a full equal-shape population and
produces exactly `populationSize` boids again. -/
theorem nextGeneration_total (M : JsMath) (x y angle : ℚ)
    (ga : GeneticAlgorithm) (rng : ℕ → ℚ) (k : ℕ)
    (sh : List (Option (List ℕ) × Option ℕ))
    (hlen : ga.boids.length = ga.populationSize)
    (hpos : 0 < ga.populationSize)
    (helite : ga.eliteCount ≤ ga.populationSize)
    (hts : 0 < ga.tournamentSize)
    (hr : ∀ m, 0 ≤ rng m ∧ rng m < 1)
    (hshape : ∀ b ∈ ga.boids, netShape b.network = sh) :
    ∃ ga1 k1, GeneticAlgorithm.nextGeneration M x y angle ga rng k = some (ga1, k1) ∧
      ga1.boids.length = ga.populationSize := by
  have hsortlen : (sortByFitnessDesc ga.boids).length = ga.populationSize := by
    rw [sortByFitnessDesc_length, hlen]
  have hsortne : sortByFitnessDesc ga.boids ≠ [] := by
    intro h
    rw [h] at hsortlen
    simp at hsortlen
    omega
  obtain ⟨best, rest, hbr⟩ := List.exists_cons_of_ne_nil hsortne
  have hhead : (sortByFitnessDesc ga.boids).head? = some best := by
    rw [hbr]; rfl
  have hshape1 : ∀ b ∈ sortByFitnessDesc ga.boids, netShape b.network = sh :=
    fun b hb => hshape b (mem_sortByFitnessDesc.mp hb)
  have helitelen : ((sortByFitnessDesc ga.boids).take ga.eliteCount).length =
      ga.eliteCount := by
    rw [List.length_take, hsortlen]
    omega
  have hphase2 := foldl_step_length
    (fun (acc : List Boid × ℕ) _ =>
      let (json, k1) := GeneticAlgorithm.mutate best.network 0.2 rng acc.2
      (acc.1 ++ [mkBoid M x y angle json], k1))
    (by
      intro acc i
      rcases hmu : GeneticAlgorithm.mutate best.network 0.2 rng acc.2 with ⟨json, k1⟩
      simp [hmu])
    (List.range (ga.populationSize / 5 -
      (((sortByFitnessDesc ga.boids).take ga.eliteCount).map
        fun b => mkBoid M x y angle b.network).length))
    ((((sortByFitnessDesc ga.boids).take ga.eliteCount).map
      fun b => mkBoid M x y angle b.network), k)
  rw [GeneticAlgorithm.nextGeneration]
  rw [hhead]
  dsimp only
  set elites := (((sortByFitnessDesc ga.boids).take ga.eliteCount).map
    fun b => mkBoid M x y angle b.network) with helites
  set phase2 := (List.range (ga.populationSize / 5 - elites.length)).foldl
    (fun (acc : List Boid × ℕ) _ =>
      let (json, k1) := GeneticAlgorithm.mutate best.network 0.2 rng acc.2
      (acc.1 ++ [mkBoid M x y angle json], k1))
    (elites, k) with hphase2def
  have helen : elites.length = ga.eliteCount := by
    rw [helites, List.length_map, helitelen]
  have hdiv : ga.populationSize / 5 ≤ ga.populationSize := Nat.div_le_self _ _
  have hp2len : phase2.1.length =
      elites.length + (ga.populationSize / 5 - elites.length) := by
    rw [hphase2def]
    rw [hphase2]
    simp
  obtain ⟨out, k1, hfc, hout⟩ := fillChildren_spec M x y angle
    { ga with boids := sortByFitnessDesc ga.boids } rng sh
    (by simpa using hsortne) hts hr (by simpa using hshape1)
    ga.populationSize phase2.1 phase2.2 (by dsimp only; omega)
  rw [hfc]
  dsimp only
  refine ⟨_, k1, rfl, ?_⟩
  rw [hout]
  simp only [hp2len, helen]
  omega

/-- C4: when every agent of a full population (of any `populationSize`,
e.g. 4) is dead, `GeneticAlgorithm.update` transitions in the same tick:
`nextGeneration` runs, the boids list again holds exactly
`populationSize` agents, the generation counter is incremented by
exactly 1, and the timer is reset to 0. -/
theorem C4_all_dead_reproduces_same_tick (M : JsMath)
    (netRun : NeuralNetworkJSON → List ℚ → List ℚ) (tr : Track)
    (ga : GeneticAlgorithm) (rng : ℕ → ℚ) (k : ℕ)
    (sh : List (Option (List ℕ) × Option ℕ))
    (hlen : ga.boids.length = ga.populationSize)
    (hpos : 0 < ga.populationSize)
    (helite : ga.eliteCount ≤ ga.populationSize)
    (hts : 0 < ga.tournamentSize)
    (hr : ∀ m, 0 ≤ rng m ∧ rng m < 1)
    (hshape : ∀ b ∈ ga.boids, netShape b.network = sh)
    (hdead : ∀ b ∈ ga.boids, b.isDead = true) :
    ∃ ga1 k1, GeneticAlgorithm.update M netRun tr ga rng k = some (ga1, k1) ∧
      ga1.boids.length = ga.populationSize ∧
      ga1.generation = ga.generation + 1 ∧ ga1.timer = 0 := by
  have hbs := mapM_update_dead M netRun tr ga.boids hdead
  have halld : allDeadB ga.boids = true := by
    rw [allDeadB, List.all_eq_true]
    exact fun b hb => by simpa using hdead b hb
  rw [GeneticAlgorithm.update]
  rw [hbs]
  dsimp only
  rw [halld]
  simp only [Bool.true_or]
  rw [if_pos trivial]
  obtain ⟨ga1, k1, hng, hlen1⟩ := nextGeneration_total M tr.startPoint.x
    tr.startPoint.y tr.startAngle
    { ga with boids := ga.boids, timer := ga.timer + 1 } rng k sh
    (by dsimp only; exact hlen) hpos helite hts hr
    (by dsimp only; exact hshape)
  rw [hng]
  obtain ⟨hgen, _, _⟩ := nextGeneration_shape _ _ _ _ _ _ _ _ _ hng
  exact ⟨{ ga1 with timer := 0 }, k1, rfl, by simpa using hlen1,
    by simpa using hgen, rfl⟩

/-- Witness for C4: the all-dead four-boid controller `ga4` transitions
in one tick to a four-boid generation 4 with the timer reset. -/
theorem C4_witness :
    ∃ ga1 k1,
      GeneticAlgorithm.update M0 netRun0 track0 ga4 rngZero 0 = some (ga1, k1) ∧
      ga1.boids.length = 4 ∧ ga1.generation = 4 ∧ ga1.timer = 0 := by
  obtain ⟨ga1, k1, h, h1, h2, h3⟩ := C4_all_dead_reproduces_same_tick M0 netRun0
    track0 ga4 rngZero 0 (netShape netW)
    (by norm_num [ga4])
    (by norm_num [ga4])
    (by norm_num [ga4])
    (by norm_num [ga4])
    (fun m => by norm_num [rngZero])
    (by
      intro b hb
      simp [ga4] at hb
      subst hb
      rfl)
    (by
      intro b hb
      simp [ga4] at hb
      subst hb
      rfl)
  exact ⟨ga1, k1, h, by simpa [ga4] using h1, by simpa [ga4] using h2, h3⟩

/-- Under a constant entropy stream that never exceeds the angle-offset
threshold and a cosine/sine pair pinned at 1 and 0, every control point
lands on the same spot to the right of the center, two draws apart. -/
theorem gcpGo_const (M : JsMath) (hcos : ∀ q, M.cos q = 1)
    (hsin : ∀ q, M.sin q = 0) (cx cy minR maxR : ℚ) (n : ℕ) (c : ℚ)
    (hc : ¬ ((0.92 : ℚ) < c)) :
    ∀ (r i k : ℕ), generateControlPointsGo M cx cy minR maxR n (fun _ => c) i r k =
      (List.replicate r ⟨cx + (minR + c * (maxR - minR)), cy⟩, k + 2 * r) := by
  intro r
  induction r with
  | zero => intro i k; rfl
  | succ r ih =>
    intro i k
    rw [generateControlPointsGo]
    dsimp only
    rw [if_neg hc]
    dsimp only
    rw [hcos, hsin, ih (i + 1) (k + 1 + 1)]
    dsimp only
    rw [List.replicate_succ]
    simp only [Prod.mk.injEq, List.cons.injEq, Vec.mk.injEq]
    and_intros <;> first | rfl | ring_nf

/-- A Catmull–Rom stencil of four identical points samples to that
point at every parameter. -/
theorem catmullPoint_self (P : Vec) (s : ℚ) : catmullPoint P P P P s = P := by
  cases P
  simp only [catmullPoint, Vec.mk.injEq]
  constructor <;> ring

/-- Positional lookup in a replicated list always hits the element. -/
theorem getD_replicate_mod {α : Type} (P d : α) (m j : ℕ) (hm : 0 < m) :
    (List.replicate m P).getD (j % m) d = P := by
  have hj : j % m < m := Nat.mod_lt _ hm
  rw [List.getD_eq_getElem?_getD, List.getElem?_replicate, if_pos hj]
  rfl

/-- Positional lookup in bounds of a replicated list. -/
theorem getD_replicate_lt {α : Type} (P d : α) (m j : ℕ) (hj : j < m) :
    (List.replicate m P).getD j d = P := by
  rw [List.getD_eq_getElem?_getD, List.getElem?_replicate, if_pos hj]
  rfl

/-- The length of a flatMap whose blocks all have the same length. -/
theorem length_flatMap_const {A B : Type} (f : A -> List B) (l : List A) (s : Nat)
    (hf : forall a, a ∈ l -> (f a).length = s) :
    (l.flatMap f).length = l.length * s := by
  induction l with
  | nil => simp
  | cons a l ih =>
    rw [List.flatMap_cons]
    simp only [List.length_append]
    rw [hf a (by simp), ih (fun x hx => hf x (List.mem_cons_of_mem a hx))]
    simp [List.length_cons]
    ring

/-- Splining a constant control polygon yields a constant center line
with `segments` samples per control point. -/
theorem spline_replicate (P : Vec) (m segs : ℕ) (hm : 0 < m) :
    catmullRomSpline (List.replicate m P) segs = List.replicate (m * segs) P := by
  rw [catmullRomSpline]
  dsimp only
  rw [List.length_replicate]
  rw [List.eq_replicate_iff]
  constructor
  · rw [length_flatMap_const _ _ segs ?hf, List.length_range]
    case hf =>
      intro a _
      simp [Function.comp_def, List.map_const', List.sum_replicate]
  · intro b hb
    rw [List.mem_flatMap] at hb
    obtain ⟨i, _, hbi⟩ := hb
    rw [List.mem_map] at hbi
    obtain ⟨t, _, hbt⟩ := hbi
    rw [getD_replicate_mod P _ m _ hm, getD_replicate_mod P _ m _ hm,
      getD_replicate_mod P _ m _ hm, getD_replicate_mod P _ m _ hm,
      catmullPoint_self] at hbt
    exact hbt.symm

/-- Two degenerate (single-point) segments never count as
intersecting. -/
theorem segmentsIntersect_degenerate (P Q : Vec) :
    segmentsIntersect P P Q Q = false := by
  rw [segmentsIntersect]
  dsimp only
  rw [if_pos]
  simp

/-- A constant center line has no self-intersection. -/
theorem hasSelf_replicate (P : Vec) (m : ℕ) (hm : 0 < m) :
    hasSelfIntersection (List.replicate m P) = false := by
  rw [hasSelfIntersection]
  dsimp only
  rw [List.length_replicate]
  rw [List.any_eq_false]
  intro i _
  rw [Bool.not_eq_true, List.any_eq_false]
  intro j _
  rw [Bool.not_eq_true, getD_replicate_mod P _ m _ hm,
    getD_replicate_mod P _ m _ hm, getD_replicate_mod P _ m _ hm,
    getD_replicate_mod P _ m _ hm]
  exact segmentsIntersect_degenerate P P

/-- With the cos/sin-pinned math object, the normal of a degenerate
(zero-tangent) stencil is the zero vector. -/
theorem calculateNormal_self (P : Vec) : calculateNormal M0 P P P = ⟨0, 0⟩ := by
  rw [calculateNormal]
  simp [M0]

/-- The flip pass leaves an all-zero normal list unchanged, starting
from no previous normal or from a zero previous normal. -/
theorem buildNormalsGo_zero :
    ∀ (m : ℕ) (p : Option Vec), p = none ∨ p = some ⟨0, 0⟩ →
      buildNormalsGo (List.replicate m ⟨0, 0⟩) p = List.replicate m ⟨0, 0⟩ := by
  intro m
  induction m with
  | zero =>
    intro p _
    rfl
  | succ m ih =>
    intro p hp
    rcases hp with h | h <;> subst h
    · rw [List.replicate_succ, buildNormalsGo]
      try dsimp only
      rw [ih (some ⟨0, 0⟩) (Or.inr rfl)]
    · rw [List.replicate_succ, buildNormalsGo]
      try dsimp only
      rw [if_neg (by norm_num)]
      rw [ih (some ⟨0, 0⟩) (Or.inr rfl)]

/-- The sign-consistent normals of a constant center line are all
zero. -/
theorem buildNormals_replicate (P : Vec) (m : ℕ) (hm : 0 < m) :
    buildNormals M0 (List.replicate m P) = List.replicate m ⟨0, 0⟩ := by
  rw [buildNormals]
  dsimp only
  rw [List.length_replicate]
  have hraw : ((List.range m).map fun i =>
      calculateNormal M0 ((List.replicate m P).getD ((i + m - 1) % m) ⟨0, 0⟩)
        ((List.replicate m P).getD i ⟨0, 0⟩)
        ((List.replicate m P).getD ((i + 1) % m) ⟨0, 0⟩)) =
      List.replicate m (⟨0, 0⟩ : Vec) := by
    rw [List.eq_replicate_iff]
    refine ⟨by simp, ?_⟩
    intro b hb
    rw [List.mem_map] at hb
    obtain ⟨i, hi, hbi⟩ := hb
    rw [List.mem_range] at hi
    rw [getD_replicate_mod P _ m _ hm, getD_replicate_lt P _ m _ hi,
      getD_replicate_mod P _ m _ hm, calculateNormal_self] at hbi
    exact hbi.symm
  rw [hraw, buildNormalsGo_zero m none (Or.inl rfl)]
  by_cases h1 : 1 < m
  · rw [if_pos h1]
    rw [getD_replicate_lt _ _ m 0 (by omega), getD_replicate_lt _ _ m (m - 1) (by omega)]
    rw [if_neg (by norm_num)]
  · rw [if_neg h1]

/-- A map over `range` whose values are all equal is a replicate. -/
theorem map_range_eq_replicate {β : Type} (f : ℕ → β) (m : ℕ) (c : β)
    (hf : ∀ i < m, f i = c) : (List.range m).map f = List.replicate m c := by
  rw [List.eq_replicate_iff]
  refine ⟨by simp, ?_⟩
  intro b hb
  rw [List.mem_map] at hb
  obtain ⟨i, hi, hbi⟩ := hb
  rw [List.mem_range] at hi
  rw [← hbi]
  exact hf i hi

/-- Building walls from a constant center line collapses every wall
segment and checkpoint onto the single center point. -/
theorem walls_replicate (t : Track) (P : Vec) (m : ℕ) (hm : 0 < m)
    (hcl : t.centerLine = List.replicate m P) :
    generateWallsFromCenterLine M0 t =
      { t with innerWalls := List.replicate m (P, P),
               outerWalls := List.replicate m (P, P),
               checkpoints := List.replicate m (P, P) } := by
  obtain ⟨px, py⟩ := P
  rw [generateWallsFromCenterLine]
  dsimp only
  rw [hcl, List.length_replicate, buildNormals_replicate _ m hm]
  rw [map_range_eq_replicate _ m ((⟨px, py⟩ : Vec), (⟨px, py⟩ : Vec)) ?h1,
    map_range_eq_replicate _ m ((⟨px, py⟩ : Vec), (⟨px, py⟩ : Vec)) ?h2,
    map_range_eq_replicate _ m ((⟨px, py⟩ : Vec), (⟨px, py⟩ : Vec)) ?h3]
  case h1 =>
    intro i hi
    rw [getD_replicate_lt _ _ m i hi, getD_replicate_lt _ _ m i hi,
      getD_replicate_mod _ _ m _ hm, getD_replicate_mod _ _ m _ hm]
    dsimp only
    norm_num
  case h2 =>
    intro i hi
    rw [getD_replicate_lt _ _ m i hi, getD_replicate_lt _ _ m i hi,
      getD_replicate_mod _ _ m _ hm, getD_replicate_mod _ _ m _ hm]
    dsimp only
    norm_num
  case h3 =>
    intro i hi
    rw [getD_replicate_mod _ _ m _ hm, getD_replicate_mod _ _ m _ hm]
    dsimp only
    norm_num

/-- Walls collapsed onto a single point never intersect: every wall
test sees two degenerate segments. -/
theorem hasWall_replicate (t : Track) (P : Vec) (m : ℕ)
    (hin : t.innerWalls = List.replicate m (P, P))
    (hout : t.outerWalls = List.replicate m (P, P)) :
    hasWallIntersection t = false := by
  rw [hasWallIntersection]
  dsimp only
  rw [hin, hout, List.length_replicate]
  rw [Bool.or_eq_false_iff]
  constructor
  · rw [List.any_eq_false]
    intro i hi
    rw [Bool.not_eq_true, List.any_eq_false]
    intro j hj
    rw [Bool.not_eq_true]
    rw [List.mem_range] at hi hj
    by_cases hc : ((i : ℤ) - (j : ℤ)).natAbs ≤ 1 ∨ m - 1 ≤ ((i : ℤ) - (j : ℤ)).natAbs
    · rw [if_pos hc]
    · rw [if_neg hc, getD_replicate_lt _ _ m i hi, getD_replicate_lt _ _ m j hj]
      exact segmentsIntersect_degenerate P P
  · rw [List.any_eq_false]
    intro i hi
    rw [Bool.not_eq_true, List.any_eq_false]
    intro j hj
    rw [Bool.not_eq_true]
    rw [List.mem_range] at hi
    have hj1 : j ∈ List.range (m - 1) := List.mem_of_mem_drop hj
    rw [List.mem_range] at hj1
    rw [getD_replicate_lt _ _ m i hi, getD_replicate_lt _ _ m j (by omega)]
    rw [segmentsIntersect_degenerate P P]
    rfl

/-- Under a constant entropy stream below the angle-offset threshold,
seed-0 generation with the pinned math object accepts its first
candidate: a center line of 210 copies of one point whose x-coordinate
moves with the stream's constant. -/
theorem generateConst_centerLine (c : ℚ) (hc : ¬ ((0.92 : ℚ) < c)) (e : ℕ → ℚ)
    (he : e = fun _ => c) :
    (Track.generateSimpleLoopedTrack M0 1200 1200 0 e).centerLine =
      List.replicate (14 * 15)
        (⟨1200 / 2 + (min (1200 : ℚ) 1200 * 0.35 * 0.75 +
            c * (min (1200 : ℚ) 1200 * 0.35 * 1.0 -
              min (1200 : ℚ) 1200 * 0.35 * 0.75)), 1200 / 2⟩ : Vec) := by
  subst he
  rw [Track.generateSimpleLoopedTrack]
  try dsimp only
  rw [if_neg (by norm_num : ¬ ((0 : ℤ) < 0))]
  rw [show (20 : ℕ) = 19 + 1 from rfl, generateLoop]
  rw [generateControlPoints]
  try dsimp only
  rw [gcpGo_const M0 (fun q => rfl) (fun q => rfl) _ _ _ _ 14 c hc]
  try dsimp only
  rw [spline_replicate _ 14 15 (by norm_num)]
  rw [hasSelf_replicate _ _ (by norm_num)]
  rw [if_neg (by simp)]
  rw [walls_replicate _ _ (14 * 15) (by norm_num) rfl]
  rw [hasWall_replicate _ _ (14 * 15) rfl rfl]
  rw [if_neg (by simp)]
  rw [findStartPoint]
  rw [show (14 * 15 : ℕ) = 209 + 1 from rfl, List.replicate_succ, List.head?_cons]
  try dsimp only

/-- C3: track generation is deterministic in the seed for every
positive seed: the draws come from the seeded Mulberry32 stream, so the
result does not depend on the ambient entropy at all.  (For seed 0 the
code falls back to `Math.random()`; see the counterexample.) -/
theorem C3_seed_determinism (M : JsMath) (w h : ℚ) (seed : ℤ) (h0 : 0 < seed)
    (e1 e2 : ℕ → ℚ) :
    Track.generateSimpleLoopedTrack M w h seed e1 =
      Track.generateSimpleLoopedTrack M w h seed e2 := by
  rw [Track.generateSimpleLoopedTrack, Track.generateSimpleLoopedTrack]
  rw [if_pos h0, if_pos h0]

/-- Witness for C3: at seed 3 the generated track is the same under the
all-zero and the all-half ambient entropy streams. -/
theorem C3_witness :
    (0 : ℤ) < 3 ∧
    Track.generateSimpleLoopedTrack M0 1200 1200 3 rngZero =
      Track.generateSimpleLoopedTrack M0 1200 1200 3 rngHalf :=
  ⟨by norm_num, C3_seed_determinism M0 1200 1200 3 (by norm_num) rngZero rngHalf⟩

/-- Counterexample to the claim's seed-0 case: with seed 0 the
generator reads the ambient entropy (`Math.random()`), so two runs
under different ambient streams yield different tracks. -/
theorem C3_counterexample :
    Track.generateSimpleLoopedTrack M0 1200 1200 0 rngZero ≠
      Track.generateSimpleLoopedTrack M0 1200 1200 0 rngHalf := by
  intro h
  have h1 := generateConst_centerLine 0 (by norm_num) rngZero rfl
  have h2 := generateConst_centerLine (1 / 2) (by norm_num) rngHalf rfl
  rw [h, h2] at h1
  have h3 := congrArg (fun l => l.getD 0 (⟨0, 0⟩ : Vec)) h1
  dsimp only at h3
  rw [getD_replicate_lt _ _ _ 0 (by norm_num),
    getD_replicate_lt _ _ _ 0 (by norm_num)] at h3
  have h4 := congrArg Vec.x h3
  norm_num at h4

/-- Under a constant entropy stream that never exceeds the angle-offset
threshold, the control points are the base-angle samples of the math
object's cosine/sine at the constant-draw radius, two draws apiece. -/
theorem gcpGo_list (M : JsMath) (cx cy minR maxR : ℚ) (n : ℕ) (c : ℚ)
    (hc : ¬ ((0.92 : ℚ) < c)) :
    ∀ (r i k : ℕ), generateControlPointsGo M cx cy minR maxR n (fun _ => c) i r k =
      ((List.range r).map fun t =>
        (⟨cx + (minR + c * (maxR - minR)) *
            M.cos (((i + t : ℕ) : ℚ) / (n : ℚ) * jsPI * 2),
          cy + (minR + c * (maxR - minR)) *
            M.sin (((i + t : ℕ) : ℚ) / (n : ℚ) * jsPI * 2)⟩ : Vec),
       k + 2 * r) := by
  intro r
  induction r with
  | zero => intro i k; rfl
  | succ r ih =>
    intro i k
    rw [generateControlPointsGo]
    dsimp only
    rw [if_neg hc]
    dsimp only
    rw [ih (i + 1) (k + 1 + 1)]
    dsimp only
    rw [List.range_succ_eq_map, List.map_cons, List.map_map]
    simp only [Prod.mk.injEq, List.cons.injEq]
    refine ⟨⟨?_, ?_⟩, by omega⟩
    · rw [add_zero]
      simp
    · refine List.map_congr_left ?_
      intro t _
      have he : (i + 1 + t : ℕ) = i + (t + 1) := by omega
      simp [he]

/-- Every attempt of the seed-0 failure run draws the same fourteen
control points, advancing the cursor by 28. -/
theorem genCP_M1 (k : ℕ) :
    generateControlPoints M1 1200 1200 rngZero k = (ptsM1, k + 2 * 14) := by
  rw [generateControlPoints]
  try dsimp only
  rw [show rngZero = fun _ => (0 : ℚ) from rfl]
  rw [gcpGo_list M1 _ _ _ _ 14 0 (by norm_num) 14 0 k]
  simp only [Prod.mk.injEq]
  refine ⟨?_, trivial⟩
  rw [ptsM1]
  refine List.map_congr_left ?_
  intro t _
  have h0 : (0 + t : ℕ) = t := by omega
  rw [h0]
  norm_num

/-- The spline has `segments` samples per control point. -/
theorem catmullRomSpline_length (pts : List Vec) (s : ℕ) :
    (catmullRomSpline pts s).length = pts.length * s := by
  rw [catmullRomSpline]
  try dsimp only
  rw [length_flatMap_const _ _ s ?hf, List.length_range]
  case hf =>
    intro a _
    simp [Function.comp_def, List.map_const', List.sum_replicate]

/-- Positional lookup in a map over `range`. -/
theorem getD_map_range {β : Type} (g : ℕ → β) (m j : ℕ) (hj : j < m) (d : β) :
    ((List.range m).map g).getD j d = g j := by
  rw [List.getD_eq_getElem?_getD, List.getElem?_map, List.getElem?_range hj]
  rfl

/-- The first fifteen spline samples come from the first control-point
stencil (previous point 13, wrapped neighbours 0, 1, 2). -/
theorem spline_getD_first (pts : List Vec) (h14 : pts.length = 14) (t : ℕ)
    (ht : t < 15) :
    (catmullRomSpline pts 15).getD t ⟨0, 0⟩ =
      catmullPoint (pts.getD 13 ⟨0, 0⟩) (pts.getD 0 ⟨0, 0⟩) (pts.getD 1 ⟨0, 0⟩)
        (pts.getD 2 ⟨0, 0⟩) ((t : ℚ) / 15) := by
  rw [catmullRomSpline]
  try dsimp only
  rw [h14]
  rw [show (14 : ℕ) = 13 + 1 from rfl, List.range_succ_eq_map, List.flatMap_cons]
  rw [List.getD_append]
  · try dsimp only
    simp only [bind_pure_comp, List.map_eq_map, List.map_map]
    rw [getD_map_range _ 15 t ht]
    norm_num
  · simp only [bind_pure_comp, List.map_eq_map, List.map_map, List.length_map,
      List.length_range]
    exact ht

/-- The crafted control points of the seed-0 failure run. -/
theorem ptsM1_len : ptsM1.length = 14 := by
  rw [ptsM1]
  simp

/-- Control point 13 of the failure run. -/
theorem ptsM1_13 : ptsM1.getD 13 ⟨0, 0⟩ = ⟨5325, -350⟩ := by
  rw [ptsM1, getD_map_range _ 14 13 (by norm_num)]
  norm_num [M1, jsPI, Vec.mk.injEq]

/-- Control point 0 of the failure run. -/
theorem ptsM1_0 : ptsM1.getD 0 ⟨0, 0⟩ = ⟨600, 600⟩ := by
  rw [ptsM1, getD_map_range _ 14 0 (by norm_num)]
  norm_num [M1, Vec.mk.injEq]

/-- Control point 1 of the failure run. -/
theorem ptsM1_1 : ptsM1.getD 1 ⟨0, 0⟩ = ⟨6000, 50⟩ := by
  rw [ptsM1, getD_map_range _ 14 1 (by norm_num)]
  norm_num [M1, jsPI, Vec.mk.injEq]

/-- Control point 2 of the failure run. -/
theorem ptsM1_2 : ptsM1.getD 2 ⟨0, 0⟩ = ⟨38400, -2000⟩ := by
  rw [ptsM1, getD_map_range _ 14 2 (by norm_num)]
  norm_num [M1, jsPI, Vec.mk.injEq]

/-- The failure run's center line loops back on itself: its chord from
sample 0 to sample 1 crosses its chord from sample 3 to sample 4. -/
theorem hSelfM1 : hasSelfIntersection clM1 = true := by
  have hlen : clM1.length = 210 := by
    rw [clM1, catmullRomSpline_length, ptsM1_len]
  have hQ0 : clM1.getD 0 ⟨0, 0⟩ = ⟨600, 600⟩ := by
    rw [clM1, spline_getD_first ptsM1 ptsM1_len 0 (by norm_num),
      ptsM1_13, ptsM1_0, ptsM1_1, ptsM1_2]
    norm_num [catmullPoint, Vec.mk.injEq]
  have hQ1 : clM1.getD 1 ⟨0, 0⟩ = ⟨610, 610⟩ := by
    rw [clM1, spline_getD_first ptsM1 ptsM1_len 1 (by norm_num),
      ptsM1_13, ptsM1_0, ptsM1_1, ptsM1_2]
    norm_num [catmullPoint, Vec.mk.injEq]
  have hQ3 : clM1.getD 3 ⟨0, 0⟩ = ⟨600, 610⟩ := by
    rw [clM1, spline_getD_first ptsM1 ptsM1_len 3 (by norm_num),
      ptsM1_13, ptsM1_0, ptsM1_1, ptsM1_2]
    norm_num [catmullPoint, Vec.mk.injEq]
  have hQ4 : clM1.getD 4 ⟨0, 0⟩ = ⟨610, 600⟩ := by
    rw [clM1, spline_getD_first ptsM1 ptsM1_len 4 (by norm_num),
      ptsM1_13, ptsM1_0, ptsM1_1, ptsM1_2]
    norm_num [catmullPoint, Vec.mk.injEq]
  rw [hasSelfIntersection]
  try dsimp only
  rw [hlen]
  rw [List.any_eq_true]
  refine ⟨0, List.mem_range.mpr (by norm_num), ?_⟩
  try dsimp only
  rw [List.any_eq_true]
  refine ⟨3, by decide, ?_⟩
  try dsimp only
  rw [show (0 : ℕ) % 210 = 0 from by norm_num,
    show (0 + 1 : ℕ) % 210 = 1 from by norm_num,
    show (3 : ℕ) % 210 = 3 from by norm_num,
    show (3 + 1 : ℕ) % 210 = 4 from by norm_num]
  rw [hQ0, hQ1, hQ3, hQ4]
  norm_num [segmentsIntersect, decide_eq_true_eq]

/-- Out of attempts, the loop returns the carried candidate as-is: no
fallback configuration is ever generated. -/
theorem generateLoop_zero (M : JsMath) (w h : ℚ) (seed : ℤ) (rng : ℕ → ℚ)
    (attempts k : ℕ) (st : Track) :
    generateLoop M w h seed rng 0 attempts k st = st := rfl

/-- A candidate failing the center-line check is dropped: the loop
retries with the same stream at the advanced cursor, only relabelling
the carried track's `seed` field to `seed + attempt * 1000` while the
attempt counter is below 20. -/
theorem generateLoop_step_selfInt (M : JsMath) (w h : ℚ) (seed : ℤ)
    (rng : ℕ → ℚ) (fuel attempts k : ℕ) (st : Track)
    (hs : hasSelfIntersection
        (catmullRomSpline (generateControlPoints M w h rng k).1 15) = true) :
    generateLoop M w h seed rng (fuel + 1) attempts k st =
      generateLoop M w h seed rng fuel (attempts + 1)
        (generateControlPoints M w h rng k).2
        (if attempts + 1 < 20 then
          { st with
            centerLine := catmullRomSpline (generateControlPoints M w h rng k).1 15,
            seed := seed + (attempts + 1) * 1000 }
         else
          { st with
            centerLine :=
              catmullRomSpline (generateControlPoints M w h rng k).1 15 }) := by
  rcases hcp : generateControlPoints M w h rng k with ⟨cps, k1⟩
  rw [hcp] at hs
  dsimp only at hs
  rw [generateLoop, hcp]
  try dsimp only
  rw [hs]
  rw [if_pos rfl]
  push_cast
  rfl

/-- A candidate passing the center-line check but failing the wall
check is likewise dropped with the seed relabel. -/
theorem generateLoop_step_wallInt (M : JsMath) (w h : ℚ) (seed : ℤ)
    (rng : ℕ → ℚ) (fuel attempts k : ℕ) (st : Track)
    (hs : hasSelfIntersection
        (catmullRomSpline (generateControlPoints M w h rng k).1 15) = false)
    (hw : hasWallIntersection (generateWallsFromCenterLine M
        { st with centerLine :=
            catmullRomSpline (generateControlPoints M w h rng k).1 15 }) = true) :
    generateLoop M w h seed rng (fuel + 1) attempts k st =
      generateLoop M w h seed rng fuel (attempts + 1)
        (generateControlPoints M w h rng k).2
        (if attempts + 1 < 20 then
          { generateWallsFromCenterLine M
            { st with centerLine :=
                catmullRomSpline (generateControlPoints M w h rng k).1 15 } with
            seed := seed + (attempts + 1) * 1000 }
         else
          generateWallsFromCenterLine M
            { st with centerLine :=
                catmullRomSpline (generateControlPoints M w h rng k).1 15 }) := by
  rcases hcp : generateControlPoints M w h rng k with ⟨cps, k1⟩
  rw [hcp] at hs hw
  dsimp only at hs hw
  rw [generateLoop, hcp]
  try dsimp only
  rw [hs]
  rw [if_neg (by simp)]
  try dsimp only
  rw [hw]
  rw [if_pos rfl]
  push_cast
  rfl

/-- A candidate passing both checks is returned at once, walls and
checkpoints built from its center line. -/
theorem generateLoop_step_valid (M : JsMath) (w h : ℚ) (seed : ℤ)
    (rng : ℕ → ℚ) (fuel attempts k : ℕ) (st : Track)
    (hs : hasSelfIntersection
        (catmullRomSpline (generateControlPoints M w h rng k).1 15) = false)
    (hw : hasWallIntersection (generateWallsFromCenterLine M
        { st with centerLine :=
            catmullRomSpline (generateControlPoints M w h rng k).1 15 }) = false) :
    generateLoop M w h seed rng (fuel + 1) attempts k st =
      generateWallsFromCenterLine M
        { st with centerLine :=
            catmullRomSpline (generateControlPoints M w h rng k).1 15 } := by
  rcases hcp : generateControlPoints M w h rng k with ⟨cps, k1⟩
  rw [hcp] at hs hw
  dsimp only at hs hw
  rw [generateLoop, hcp]
  try dsimp only
  rw [hs]
  rw [if_neg (by simp)]
  try dsimp only
  rw [hw]
  rw [if_neg (by simp)]

/-- Every attempt of the seed-0 failure run is rejected by the
center-line check. -/
theorem hfailM1 (k : ℕ) :
    hasSelfIntersection
      (catmullRomSpline (generateControlPoints M1 1200 1200 rngZero k).1 15) = true := by
  rw [genCP_M1 k]
  exact hSelfM1

/-- In the seed-0 failure run the loop burns through all its attempts:
the result keeps the carried walls and checkpoints (never built) and
carries the last rejected center line out of the loop. -/
theorem genLoopM1_inv : ∀ (fuel attempts k : ℕ) (st : Track),
    (generateLoop M1 1200 1200 0 rngZero (fuel + 1) attempts k st).innerWalls =
      st.innerWalls ∧
    (generateLoop M1 1200 1200 0 rngZero (fuel + 1) attempts k st).outerWalls =
      st.outerWalls ∧
    (generateLoop M1 1200 1200 0 rngZero (fuel + 1) attempts k st).checkpoints =
      st.checkpoints ∧
    (generateLoop M1 1200 1200 0 rngZero (fuel + 1) attempts k st).centerLine =
      clM1 := by
  intro fuel
  induction fuel with
  | zero =>
    intro attempts k st
    rw [generateLoop_step_selfInt M1 1200 1200 0 rngZero 0 attempts k st (hfailM1 k)]
    rw [generateLoop_zero]
    by_cases h20 : attempts + 1 < 20
    · rw [if_pos h20]
      refine ⟨rfl, rfl, rfl, ?_⟩
      show catmullRomSpline (generateControlPoints M1 1200 1200 rngZero k).1 15 = clM1
      rw [genCP_M1 k]
      rfl
    · rw [if_neg h20]
      refine ⟨rfl, rfl, rfl, ?_⟩
      show catmullRomSpline (generateControlPoints M1 1200 1200 rngZero k).1 15 = clM1
      rw [genCP_M1 k]
      rfl
  | succ fuel ih =>
    intro attempts k st
    rw [generateLoop_step_selfInt M1 1200 1200 0 rngZero (fuel + 1) attempts k st
      (hfailM1 k)]
    by_cases h20 : attempts + 1 < 20
    · rw [if_pos h20]
      exact ih (attempts + 1) _ _
    · rw [if_neg h20]
      exact ih (attempts + 1) _ _

/-- C1: amended.  The retry loop of `generateSimpleLoopedTrack` draws
every attempt from one continuous random stream and has no
guaranteed-valid fallback: a candidate passing both validity checks is
returned at once with its walls and checkpoints; a failing candidate
only advances the attempt counter and the shared stream's cursor,
relabelling the carried track's `seed` field to `seed + attempt * 1000`
while fewer than 20 attempts were made (the stream itself is never
re-seeded); and once the attempts are exhausted the loop returns the
last — possibly invalid — candidate as-is. -/
theorem C1_no_reseed_no_fallback (M : JsMath) (w h : ℚ) (seed : ℤ)
    (rng : ℕ → ℚ) (fuel attempts k : ℕ) (st : Track) :
    (generateLoop M w h seed rng 0 attempts k st = st) ∧
    (hasSelfIntersection
        (catmullRomSpline (generateControlPoints M w h rng k).1 15) = true →
      generateLoop M w h seed rng (fuel + 1) attempts k st =
        generateLoop M w h seed rng fuel (attempts + 1)
          (generateControlPoints M w h rng k).2
          (if attempts + 1 < 20 then
            { st with
              centerLine :=
                catmullRomSpline (generateControlPoints M w h rng k).1 15,
              seed := seed + (attempts + 1) * 1000 }
           else
            { st with
              centerLine :=
                catmullRomSpline (generateControlPoints M w h rng k).1 15 })) ∧
    (hasSelfIntersection
        (catmullRomSpline (generateControlPoints M w h rng k).1 15) = false →
      hasWallIntersection (generateWallsFromCenterLine M
        { st with centerLine :=
            catmullRomSpline (generateControlPoints M w h rng k).1 15 }) = true →
      generateLoop M w h seed rng (fuel + 1) attempts k st =
        generateLoop M w h seed rng fuel (attempts + 1)
          (generateControlPoints M w h rng k).2
          (if attempts + 1 < 20 then
            { generateWallsFromCenterLine M
              { st with centerLine :=
                  catmullRomSpline (generateControlPoints M w h rng k).1 15 } with
              seed := seed + (attempts + 1) * 1000 }
           else
            generateWallsFromCenterLine M
              { st with centerLine :=
                  catmullRomSpline (generateControlPoints M w h rng k).1 15 })) ∧
    (hasSelfIntersection
        (catmullRomSpline (generateControlPoints M w h rng k).1 15) = false →
      hasWallIntersection (generateWallsFromCenterLine M
        { st with centerLine :=
            catmullRomSpline (generateControlPoints M w h rng k).1 15 }) = false →
      generateLoop M w h seed rng (fuel + 1) attempts k st =
        generateWallsFromCenterLine M
          { st with centerLine :=
              catmullRomSpline (generateControlPoints M w h rng k).1 15 }) :=
  ⟨generateLoop_zero M w h seed rng attempts k st,
   fun hs => generateLoop_step_selfInt M w h seed rng fuel attempts k st hs,
   fun hs hw => generateLoop_step_wallInt M w h seed rng fuel attempts k st hs hw,
   fun hs hw => generateLoop_step_valid M w h seed rng fuel attempts k st hs hw⟩

/-- Witness for C1: under the pinned math object and the all-zero
entropy stream the very first candidate is valid, and one loop step
returns it with its walls built. -/
theorem C1_witness :
    generateLoop M0 1200 1200 0 rngZero 1 0 0 trackInit =
      generateWallsFromCenterLine M0
        { trackInit with centerLine :=
            catmullRomSpline (generateControlPoints M0 1200 1200 rngZero 0).1 15 } := by
  have hcp : generateControlPoints M0 1200 1200 rngZero 0 =
      (List.replicate 14
        (⟨1200 / 2 + (min (1200 : ℚ) 1200 * 0.35 * 0.75 +
            0 * (min (1200 : ℚ) 1200 * 0.35 * 1.0 -
              min (1200 : ℚ) 1200 * 0.35 * 0.75)), 1200 / 2⟩ : Vec),
       0 + 2 * 14) := by
    rw [generateControlPoints]
    try dsimp only
    exact gcpGo_const M0 (fun q => rfl) (fun q => rfl) _ _ _ _ 14 0 (by norm_num)
      14 0 0
  have hself : hasSelfIntersection
      (catmullRomSpline (generateControlPoints M0 1200 1200 rngZero 0).1 15) = false := by
    rw [hcp]
    try dsimp only
    rw [spline_replicate _ 14 15 (by norm_num)]
    exact hasSelf_replicate _ _ (by norm_num)
  have hwall : hasWallIntersection (generateWallsFromCenterLine M0
      { trackInit with centerLine :=
          catmullRomSpline (generateControlPoints M0 1200 1200 rngZero 0).1 15 }) =
      false := by
    rw [hcp]
    try dsimp only
    rw [spline_replicate _ 14 15 (by norm_num)]
    rw [walls_replicate _ _ (14 * 15) (by norm_num) rfl]
    exact hasWall_replicate _ _ (14 * 15) rfl rfl
  exact (C1_no_reseed_no_fallback M0 1200 1200 0 rngZero 0 0 0 trackInit).2.2.2
    hself hwall

/-- Counterexample for C1's original reading: with the crafted math
object every one of the 20 candidates fails validation, and the
returned "track" is the last failed candidate — no walls, no
checkpoints, and a self-intersecting center line — not a track that
passed validation. -/
theorem C1_counterexample :
    (Track.generateSimpleLoopedTrack M1 1200 1200 0 rngZero).innerWalls = [] ∧
    (Track.generateSimpleLoopedTrack M1 1200 1200 0 rngZero).outerWalls = [] ∧
    (Track.generateSimpleLoopedTrack M1 1200 1200 0 rngZero).checkpoints = [] ∧
    hasSelfIntersection
      (Track.generateSimpleLoopedTrack M1 1200 1200 0 rngZero).centerLine = true := by
  obtain ⟨h1, h2, h3, h4⟩ :=
    genLoopM1_inv 19 0 0
      ⟨[], [], [], ⟨0, 0⟩, 0, 0, []⟩
  rw [Track.generateSimpleLoopedTrack]
  try dsimp only
  rw [if_neg (by norm_num : ¬ ((0 : ℤ) < 0))]
  rw [show (20 : ℕ) = 19 + 1 from rfl]
  have hh : (generateLoop M1 1200 1200 0 rngZero (19 + 1) 0 0
      (⟨[], [], [], ⟨0, 0⟩, 0, 0, []⟩ : Track)).checkpoints.head? = none := by
    rw [h3]
    rfl
  rw [findStartPoint, hh]
  try dsimp only
  exact ⟨h1, h2, h3, by rw [h4]; exact hSelfM1⟩
